import Mathlib

/-!
Shallow embedding of the core logic of the `astrbot_plugin_novel` plugin
(vote manager, idea manager, chat-novel engine, novel engine).

Python dictionaries keyed by strings are modelled as insertion-ordered
association lists (`PyDict`): CPython dictionaries iterate in insertion
order, and assignment replaces the binding in place when the key exists,
else appends it.  Every stateful method is modelled as a pure function
from the loaded JSON state to the pair of the returned value and the
saved state.  A call to the text-generation backend is modelled by an
explicit outcome argument: `Except.error e` stands for a call that raised
an exception (with message `e`), and `Except.ok x` for a call that
returned, with the structured-parse outcome inside `x` when the caller
parses the response.
-/

namespace NovelPlugin

/-! ## Python dictionaries as insertion-ordered association lists -/

namespace PyDict

variable {β : Type}

/-- Python `d.get(k)`: first value bound to `k` (keys are unique in
dictionaries built with `set`, so the first binding is the binding). -/
def get? : List (String × β) → String → Option β
  | [], _ => none
  | (k', v) :: rest, k => if k' = k then some v else get? rest k

/-- Python `d.get(k, dflt)`. -/
def getD (d : List (String × β)) (k : String) (dflt : β) : β :=
  (get? d k).getD dflt

/-- Python `d[k] = v`: replace the binding in place when `k` is present,
else append it at the end (insertion order). -/
def set : List (String × β) → String → β → List (String × β)
  | [], k, v => [(k, v)]
  | (k', v') :: rest, k, v =>
      if k' = k then (k, v) :: rest else (k', v') :: set rest k v

/-- The keys of the dictionary in iteration order. -/
def keys (d : List (String × β)) : List String := d.map Prod.fst

@[simp] theorem keys_nil : keys ([] : List (String × β)) = [] := rfl

@[simp] theorem keys_cons (p : String × β) (d : List (String × β)) :
    keys (p :: d) = p.1 :: keys d := rfl

@[simp] theorem keys_append (d e : List (String × β)) :
    keys (d ++ e) = keys d ++ keys e := by
  simp [keys]

theorem get?_eq_of_mem_nodup {d : List (String × β)} {k : String} {v : β}
    (hnd : (keys d).Nodup) (hm : (k, v) ∈ d) : get? d k = some v := by
  induction d with
  | nil => cases hm
  | cons p rest ih =>
    rcases List.mem_cons.mp hm with h | h
    · subst h
      simp [get?]
    · have hnd' := List.nodup_cons.mp (show (p.1 :: keys rest).Nodup from hnd)
      have hk : p.1 ≠ k := by
        intro hk
        have : k ∈ keys rest := by
          simpa [keys] using List.mem_map_of_mem Prod.fst h
        exact hnd'.1 (hk ▸ this)
      simpa [get?, hk] using ih hnd'.2 h

theorem set_eq_append_of_not_mem {d : List (String × β)} {k : String} (v : β)
    (h : k ∉ keys d) : set d k v = d ++ [(k, v)] := by
  induction d with
  | nil => simp [set]
  | cons p rest ih =>
    have h1 : p.1 ≠ k := by
      intro hk
      exact h (by simp [keys, hk])
    have h2 : k ∉ keys rest := by
      intro hk
      exact h (by simp [keys] at hk ⊢; right; exact hk)
    simp [set, h1, ih h2]

theorem set_eq_map_of_mem_nodup {d : List (String × β)} {k : String} (v : β)
    (hnd : (keys d).Nodup) (hk : k ∈ keys d) :
    set d k v = d.map (fun p => if p.1 = k then (p.1, v) else p) := by
  induction d with
  | nil => cases hk
  | cons p rest ih =>
    have hnd' := List.nodup_cons.mp (show (p.1 :: keys rest).Nodup from hnd)
    by_cases h : p.1 = k
    · subst h
      have hout : p.1 ∉ keys rest := hnd'.1
      have : rest.map (fun q => if q.1 = p.1 then (q.1, v) else q) = rest := by
        apply List.map_congr_left ?_ |>.trans (List.map_id rest)
        intro q hq
        have : q.1 ≠ p.1 := by
          intro he
          exact hout (by simpa [keys, he] using List.mem_map_of_mem Prod.fst hq)
        simp [this]
      simp [set, this]
    · have hk' : k ∈ keys rest := by
        rcases List.mem_cons.mp (show k ∈ p.1 :: keys rest from hk) with h' | h'
        · exact absurd h'.symm h
        · exact h'
      have hne : p.1 ≠ k := h
      simp [set, hne, ih hnd'.2 hk']

theorem keys_set_of_mem_nodup {d : List (String × β)} {k : String} (v : β)
    (hnd : (keys d).Nodup) (hk : k ∈ keys d) : keys (set d k v) = keys d := by
  rw [set_eq_map_of_mem_nodup v hnd hk]
  simp only [keys, List.map_map]
  apply List.map_congr_left
  intro p _
  by_cases h : p.1 = k <;> simp [h]

theorem nodup_keys_set {d : List (String × β)} (k : String) (v : β)
    (hnd : (keys d).Nodup) : (keys (set d k v)).Nodup := by
  by_cases hk : k ∈ keys d
  · rw [keys_set_of_mem_nodup v hnd hk]
    exact hnd
  · rw [set_eq_append_of_not_mem v hk, keys_append]
    refine List.Nodup.append hnd (by simp) ?_
    intro a ha hb
    rcases (by simpa using hb : a = k) with rfl
    exact hk ha

theorem get?_set_self (d : List (String × β)) (k : String) (v : β) :
    get? (set d k v) k = some v := by
  induction d with
  | nil => simp [set, get?]
  | cons p rest ih =>
    by_cases h : p.1 = k
    · simp [set, h, get?]
    · simp [set, h, get?, ih]

end PyDict

/-- Python `str.strip()` modelled on the character list (kernel-computable,
unlike `String.trim`, and matching Python's strip-both-ends semantics). -/
def pyStrip (s : String) : String :=
  ⟨((s.data.dropWhile Char.isWhitespace).reverse.dropWhile Char.isWhitespace).reverse⟩

/-- Python slice `s[:n]` (by code points). -/
def pyTake (n : Nat) (s : String) : String :=
  ⟨s.data.take n⟩

/-- Python slice `s[-n:]` (by code points; the whole string when shorter). -/
def pyTakeRight (n : Nat) (s : String) : String :=
  ⟨s.data.drop (s.data.length - n)⟩

/-! ## Vote manager (`vote_manager.py`) -/

/-- One entry of a vote's `options` list: `{"key": ..., "label": ...}`. -/
structure VoteOption where
  key : String
  label : String
  deriving DecidableEq

/-- The `result` field attached to a closed vote. -/
structure VoteResult where
  tally : List (String × Nat)
  winner : Option String
  winner_label : String
  total_votes : Nat
  deriving DecidableEq

/-- One record of `votes.json`.  `ballots` is a Python dict mapping a
user id to the chosen option key, in insertion order. -/
structure Vote where
  id : String
  description : String
  options : List VoteOption
  ballots : List (String × String)
  status : String
  result : Option VoteResult
  related_idea_id : String
  deriving DecidableEq

/-- One step of Python `max(iterable, key=...)`: the running best is
replaced only on a strictly greater value, so ties keep the earlier
element. -/
def bestOf : (String × Nat) → List (String × Nat) → (String × Nat)
  | b, [] => b
  | b, q :: l => bestOf (if q.2 > b.2 then q else b) l

/-- Python `max(tally, key=lambda k: tally[k])` over the insertion-ordered
tally dictionary (`None` on an empty dictionary, mirroring the
`if tally else None` guard in `close_vote`). -/
def maxKey : List (String × Nat) → Option String
  | [] => none
  | p :: l => some (bestOf p l).1

/-- Zero-filling loop of `close_vote`:
`for opt in v["options"]: tally[opt["key"]] = 0`. -/
def tallyInit (options : List VoteOption) : List (String × Nat) :=
  options.foldl (fun d o => PyDict.set d o.key 0) []

/-- Counting loop of `close_vote`:
`for _, choice in v["ballots"].items(): tally[choice] = tally.get(choice, 0) + 1`. -/
def tallyBallots (init : List (String × Nat)) (choices : List String) :
    List (String × Nat) :=
  choices.foldl (fun d c => PyDict.set d c (PyDict.getD d c 0 + 1)) init

/-- The closing computation of `VoteManager.close_vote` applied to a vote
that is not yet closed: tally, winner, result record, status flip. -/
def closeVoteCalc (v : Vote) : Vote :=
  let tally := tallyBallots (tallyInit v.options) (v.ballots.map Prod.snd)
  let winner := maxKey tally
  { v with
    status := "closed"
    result := some
      { tally := tally
        winner := winner
        winner_label :=
          match winner with
          | none => ""
          | some w => ((v.options.find? (fun o => o.key = w)).map VoteOption.label).getD ""
        total_votes := v.ballots.length } }

/-- `VoteManager.close_vote`: walk the vote list, close the first vote
with the given id (idempotent when already closed), return it together
with the saved list; `None` when no vote matches. -/
def close_vote : List Vote → String → Option Vote × List Vote
  | [], _ => (none, [])
  | v :: rest, vote_id =>
      if v.id = vote_id then
        if v.status = "closed" then (some v, v :: rest)
        else
          let v' := closeVoteCalc v
          (some v', v' :: rest)
      else
        let r := close_vote rest vote_id
        (r.1, v :: r.2)

/-- Sorted-key helper used by `cast_vote`'s invalid-option message:
insertion sort by the string order. -/
def insortStr (s : String) : List String → List String
  | [] => [s]
  | t :: ts => if s ≤ t then s :: t :: ts else t :: insortStr s ts

/-- Python `sorted(...)` over a list of strings. -/
def sortStr (l : List String) : List String := l.foldr insortStr []

/-- `VoteManager.cast_vote`: find the vote by id; reject when its status
is not `open` or the option key is invalid; otherwise upsert the ballot
and report the prior choice when the stored value was truthy. -/
def cast_vote : List Vote → String → String → String → (Bool × String) × List Vote
  | [], _, _, _ => ((false, "未找到该投票"), [])
  | v :: rest, vote_id, user_id, option_key =>
      if v.id = vote_id then
        if v.status ≠ "open" then ((false, "投票已结束"), v :: rest)
        else if option_key ∉ v.options.map VoteOption.key then
          ((false, "无效选项，可选：" ++
            String.intercalate ", " (sortStr (v.options.map VoteOption.key).eraseDups)),
            v :: rest)
        else
          let old := PyDict.get? v.ballots user_id
          let v' := { v with ballots := PyDict.set v.ballots user_id option_key }
          match old with
          | some s =>
              if s ≠ "" then
                ((true, "已将投票从 " ++ s ++ " 改为 " ++ option_key), v' :: rest)
              else ((true, "投票成功：" ++ option_key), v' :: rest)
          | none => ((true, "投票成功：" ++ option_key), v' :: rest)
      else
        let r := cast_vote rest vote_id user_id option_key
        (r.1, v :: r.2)

/-! ### Tally lemmas -/

theorem foldl_set_zero_eq (options : List VoteOption) :
    ∀ d : List (String × Nat), (options.map VoteOption.key).Nodup →
      (∀ o ∈ options, o.key ∉ PyDict.keys d) →
      options.foldl (fun d o => PyDict.set d o.key 0) d =
        d ++ options.map (fun o => (o.key, 0)) := by
  induction options with
  | nil => intro d _ _; simp
  | cons o os ih =>
    intro d hnd h
    have hnd' := List.nodup_cons.mp (show (o.key :: os.map VoteOption.key).Nodup by
      simpa using hnd)
    have hstep : PyDict.set d o.key 0 = d ++ [(o.key, 0)] :=
      PyDict.set_eq_append_of_not_mem 0 (h o (List.mem_cons_self o os))
    have hrest : ∀ o' ∈ os, o'.key ∉ PyDict.keys (d ++ [(o.key, 0)]) := by
      intro o' ho' hmem
      rcases (by simpa using hmem : o'.key ∈ PyDict.keys d ∨ o'.key = o.key) with hm | hm
      · exact h o' (List.mem_cons_of_mem o ho') hm
      · exact hnd'.1 (hm ▸ List.mem_map_of_mem VoteOption.key ho')
    calc (o :: os).foldl (fun d o => PyDict.set d o.key 0) d
        = os.foldl (fun d o => PyDict.set d o.key 0) (d ++ [(o.key, 0)]) := by
          simp [List.foldl_cons, hstep]
      _ = d ++ [(o.key, 0)] ++ os.map (fun o => (o.key, 0)) := ih _ hnd'.2 hrest
      _ = d ++ (o :: os).map (fun o => (o.key, 0)) := by simp

theorem tallyInit_eq (options : List VoteOption)
    (hnd : (options.map VoteOption.key).Nodup) :
    tallyInit options = options.map (fun o => (o.key, 0)) := by
  simpa [tallyInit] using foldl_set_zero_eq options [] hnd (by simp)

theorem tallyBallots_eq (choices : List String) :
    ∀ d : List (String × Nat), (PyDict.keys d).Nodup →
      (∀ c ∈ choices, c ∈ PyDict.keys d) →
      tallyBallots d choices = d.map (fun p => (p.1, p.2 + choices.count p.1)) := by
  induction choices with
  | nil =>
    intro d _ _
    simp [tallyBallots]
  | cons c cs ih =>
    intro d hnd h
    have hc : c ∈ PyDict.keys d := h c (List.mem_cons_self c cs)
    have hset := PyDict.set_eq_map_of_mem_nodup (PyDict.getD d c 0 + 1) hnd hc
    have hkeys := PyDict.keys_set_of_mem_nodup (β := Nat) (PyDict.getD d c 0 + 1) hnd hc
    have hstep : tallyBallots d (c :: cs) =
        tallyBallots (PyDict.set d c (PyDict.getD d c 0 + 1)) cs := by
      simp [tallyBallots]
    rw [hstep, ih _ (hkeys ▸ hnd) (fun c' hc' => hkeys ▸ h c' (List.mem_cons_of_mem c hc')),
      hset, List.map_map]
    apply List.map_congr_left
    rintro ⟨p1, p2⟩ hp
    by_cases hpc : p1 = c
    · subst hpc
      have hv : PyDict.get? d p1 = some p2 := PyDict.get?_eq_of_mem_nodup hnd hp
      have hgd : PyDict.getD d p1 0 = p2 := by simp [PyDict.getD, hv]
      simp [Function.comp, hgd, List.count_cons]
      omega
    · simp [Function.comp, hpc, List.count_cons]

/-! ### Lemmas about the first-maximum scan -/

theorem bestOf_mem (b : String × Nat) (l : List (String × Nat)) :
    bestOf b l ∈ b :: l := by
  induction l generalizing b with
  | nil => simp [bestOf]
  | cons q l ih =>
    rw [bestOf]
    rcases List.mem_cons.mp (ih (if q.2 > b.2 then q else b)) with h | h
    · rw [h]
      by_cases hq : q.2 > b.2 <;> simp [hq]
    · exact List.mem_cons_of_mem _ (List.mem_cons_of_mem _ h)

theorem bestOf_le (b : String × Nat) (l : List (String × Nat)) :
    ∀ q ∈ b :: l, q.2 ≤ (bestOf b l).2 := by
  induction l generalizing b with
  | nil =>
    intro q hq
    simp at hq
    simp [bestOf, hq]
  | cons p l ih =>
    intro q hq
    rw [bestOf]
    have hcself : (if p.2 > b.2 then p else b).2 ≤
        (bestOf (if p.2 > b.2 then p else b) l).2 :=
      ih (if p.2 > b.2 then p else b) _ (List.mem_cons_self _ _)
    have hb : b.2 ≤ (if p.2 > b.2 then p else b).2 := by
      by_cases hc : p.2 > b.2
      · rw [if_pos hc]; omega
      · rw [if_neg hc]
    have hp : p.2 ≤ (if p.2 > b.2 then p else b).2 := by
      by_cases hc : p.2 > b.2
      · rw [if_pos hc]
      · rw [if_neg hc]; omega
    rcases List.mem_cons.mp hq with h | h
    · rw [h]; exact le_trans hb hcself
    · rcases List.mem_cons.mp h with h' | h'
      · rw [h']; exact le_trans hp hcself
      · exact ih _ _ (List.mem_cons_of_mem _ h')

theorem bestOf_find? (b : String × Nat) (l : List (String × Nat)) :
    (b :: l).find? (fun q => decide ((bestOf b l).2 ≤ q.2)) = some (bestOf b l) := by
  induction l generalizing b with
  | nil => simp [bestOf, List.find?]
  | cons q l ih =>
    rw [bestOf]
    by_cases hq : q.2 > b.2
    · rw [if_pos hq]
      have hqB : q.2 ≤ (bestOf q l).2 := bestOf_le q l q (List.mem_cons_self _ _)
      have hb : ¬ ((bestOf q l).2 ≤ b.2) := by omega
      rw [List.find?_cons_of_neg _ (by simpa using hb)]
      exact ih q
    · rw [if_neg hq]
      have hqb : q.2 ≤ b.2 := by omega
      have hthis := ih b
      by_cases hb : (bestOf b l).2 ≤ b.2
      · rw [List.find?_cons_of_pos _ (by simpa using hb)] at hthis
        rw [List.find?_cons_of_pos _ (by simpa using hb)]
        exact hthis
      · have hqB : ¬ ((bestOf b l).2 ≤ q.2) := by omega
        rw [List.find?_cons_of_neg _ (by simpa using hb)] at hthis
        rw [List.find?_cons_of_neg _ (by simpa using hb),
          List.find?_cons_of_neg _ (by simpa using hqB)]
        exact hthis

theorem find?_congr' {α : Type} {l : List α} {p q : α → Bool}
    (h : ∀ a ∈ l, p a = q a) : l.find? p = l.find? q := by
  induction l with
  | nil => rfl
  | cons a l ih =>
    rw [List.find?, List.find?, h a (List.mem_cons_self a l)]
    by_cases hq : q a
    · simp [hq]
    · simp only [Bool.not_eq_true] at hq
      simp [hq]
      exact ih (fun a ha => h a (List.mem_cons_of_mem _ ha))

theorem find?_map' {α β : Type} (f : α → β) (l : List α) (p : β → Bool) :
    (l.map f).find? p = (l.find? (fun a => p (f a))).map f := by
  induction l with
  | nil => rfl
  | cons a l ih =>
    rw [List.map_cons, List.find?, List.find?]
    by_cases hp : p (f a) <;> simp [hp, ih]

/-! ### Sum-of-counts lemmas -/

theorem sum_map_add {α : Type} (l : List α) (f g : α → Nat) :
    (l.map fun x => f x + g x).sum = (l.map f).sum + (l.map g).sum := by
  induction l with
  | nil => simp
  | cons a l ih => simp [ih]; omega

theorem sum_map_ite_zero_of_not_mem {ks : List String} {c : String} (h : c ∉ ks) :
    (ks.map fun k => if k = c then 1 else 0).sum = 0 := by
  induction ks with
  | nil => simp
  | cons a ks ih =>
    have ha : a ≠ c := fun he => h (he ▸ List.mem_cons_self a ks)
    simp [ha, ih (fun hm => h (List.mem_cons_of_mem a hm))]

theorem sum_map_ite_zero {ks : List String} {c : String}
    (hnd : ks.Nodup) (hc : c ∈ ks) :
    (ks.map fun k => if k = c then 1 else 0).sum = 1 := by
  induction ks with
  | nil => cases hc
  | cons a ks ih =>
    have hnd' := List.nodup_cons.mp hnd
    by_cases ha : a = c
    · subst ha
      simp [sum_map_ite_zero_of_not_mem hnd'.1]
    · rcases List.mem_cons.mp hc with h | h
      · exact absurd h.symm ha
      · simp [ha, ih hnd'.2 h]

theorem sum_counts (ks : List String) (l : List String)
    (hnd : ks.Nodup) (hl : ∀ c ∈ l, c ∈ ks) :
    (ks.map fun k => l.count k).sum = l.length := by
  induction l with
  | nil => simp
  | cons c cs ih =>
    have h1 : ∀ k, (c :: cs).count k = cs.count k + (if k = c then 1 else 0) := by
      intro k
      by_cases hk : k = c <;> simp [List.count_cons, hk]
    calc (ks.map fun k => (c :: cs).count k).sum
        = (ks.map fun k => cs.count k + (if k = c then 1 else 0)).sum := by
          apply congrArg
          exact List.map_congr_left (fun k _ => h1 k)
      _ = (ks.map fun k => cs.count k).sum + (ks.map fun k => if k = c then 1 else 0).sum :=
          sum_map_add ks _ _
      _ = cs.length + 1 := by
          rw [ih (fun c' hc' => hl c' (List.mem_cons_of_mem c hc')),
            sum_map_ite_zero hnd (hl c (List.mem_cons_self c cs))]
      _ = (c :: cs).length := by simp

theorem maxKey_first_max (t : List (String × Nat)) (ht : t ≠ []) :
    ∃ B : String × Nat, maxKey t = some B.1 ∧ B ∈ t ∧ (∀ q ∈ t, q.2 ≤ B.2) ∧
      t.find? (fun q => decide (q.2 = B.2)) = some B := by
  rcases List.exists_cons_of_ne_nil ht with ⟨p, l, rfl⟩
  refine ⟨bestOf p l, rfl, bestOf_mem p l, bestOf_le p l, ?_⟩
  rw [find?_congr' (q := fun q => decide ((bestOf p l).2 ≤ q.2)) (fun a ha => ?_)]
  · exact bestOf_find? p l
  · have hle : a.2 ≤ (bestOf p l).2 := bestOf_le p l a ha
    exact decide_eq_decide.mpr ⟨fun h => le_of_eq h.symm, fun h => le_antisymm hle h⟩

theorem close_vote_eq_calc (votes : List Vote) (v : Vote)
    (hfind : votes.find? (fun x => decide (x.id = v.id)) = some v)
    (hopen : v.status ≠ "closed") :
    (close_vote votes v.id).1 = some (closeVoteCalc v) := by
  induction votes with
  | nil => simp [List.find?] at hfind
  | cons x rest ih =>
    by_cases hx : x.id = v.id
    · rw [List.find?_cons_of_pos _ (by simpa using hx)] at hfind
      have hxv : x = v := by injection hfind
      subst hxv
      simp [close_vote, hx, hopen]
    · rw [List.find?_cons_of_neg _ (by simpa using hx)] at hfind
      simp only [close_vote, if_neg hx]
      exact ih hfind

/-- C1: for every vote closed by `close_vote` with at least one recorded
ballot (and with valid ballots and distinct declared option keys), the
computed tally maps every declared option key to the count of ballots that
chose that key (zero-filled), the sum of the tally values equals the
number of ballots, the winner is an option key with maximal tally, and on
ties the winner is the first such option in declaration order. -/
theorem c1_close_vote_tally (votes : List Vote) (v : Vote)
    (hfind : votes.find? (fun x => decide (x.id = v.id)) = some v)
    (hopen : v.status ≠ "closed")
    (hballots : v.ballots ≠ [])
    (hvalid : ∀ b ∈ v.ballots, b.2 ∈ v.options.map VoteOption.key)
    (hnd : (v.options.map VoteOption.key).Nodup) :
    ∃ res : VoteResult,
      (close_vote votes v.id).1 = some (closeVoteCalc v) ∧
      (closeVoteCalc v).result = some res ∧
      (∀ o ∈ v.options,
        PyDict.get? res.tally o.key = some ((v.ballots.map Prod.snd).count o.key)) ∧
      (res.tally.map Prod.snd).sum = v.ballots.length ∧
      ∃ w, res.winner = some w ∧ w ∈ v.options.map VoteOption.key ∧
        (∀ o ∈ v.options,
          (v.ballots.map Prod.snd).count o.key ≤ (v.ballots.map Prod.snd).count w) ∧
        (v.options.find? (fun o =>
            decide ((v.ballots.map Prod.snd).count o.key =
              (v.ballots.map Prod.snd).count w))).map VoteOption.key = some w := by
  have hchoices : ∀ c ∈ v.ballots.map Prod.snd, c ∈ v.options.map VoteOption.key := by
    intro c hc
    rcases List.mem_map.mp hc with ⟨b, hb, rfl⟩
    exact hvalid b hb
  have hkeys0 : PyDict.keys (v.options.map fun o => (o.key, (0 : Nat))) =
      v.options.map VoteOption.key := by
    simp [PyDict.keys, List.map_map]
  have htally : tallyBallots (tallyInit v.options) (v.ballots.map Prod.snd) =
      v.options.map (fun o => (o.key, (v.ballots.map Prod.snd).count o.key)) := by
    rw [tallyInit_eq _ hnd,
      tallyBallots_eq _ _ (by rw [hkeys0]; exact hnd) (by rw [hkeys0]; exact hchoices),
      List.map_map]
    apply List.map_congr_left
    intro o _
    simp
  have hkeysT : PyDict.keys
      (v.options.map fun o => (o.key, (v.ballots.map Prod.snd).count o.key)) =
      v.options.map VoteOption.key := by
    simp [PyDict.keys, List.map_map]
  have hTne : v.options.map (fun o => (o.key, (v.ballots.map Prod.snd).count o.key)) ≠ [] := by
    intro he
    rcases List.exists_cons_of_ne_nil hballots with ⟨b, bs, hb⟩
    have : b.2 ∈ v.options.map VoteOption.key := hvalid b (hb ▸ List.mem_cons_self b bs)
    rcases List.mem_map.mp this with ⟨o, ho, _⟩
    rw [List.eq_nil_iff_forall_not_mem] at he
    exact he (o.key, (v.ballots.map Prod.snd).count o.key) (List.mem_map_of_mem _ ho)
  rcases maxKey_first_max _ hTne with ⟨B, hmax, hBmem, hBle, hBfind⟩
  rcases List.mem_map.mp hBmem with ⟨ow, how, hfow⟩
  have hB1 : B.1 = ow.key := (congrArg Prod.fst hfow).symm
  have hB2 : B.2 = (v.ballots.map Prod.snd).count B.1 := by
    rw [hB1]
    exact (congrArg Prod.snd hfow).symm
  refine ⟨_, close_vote_eq_calc votes v hfind hopen, rfl, ?_, ?_, ?_⟩
  · intro o ho
    show PyDict.get? (tallyBallots (tallyInit v.options) (v.ballots.map Prod.snd)) o.key = _
    rw [htally]
    exact PyDict.get?_eq_of_mem_nodup (hkeysT ▸ hnd)
      (List.mem_map_of_mem (fun o => (o.key, (v.ballots.map Prod.snd).count o.key)) ho)
  · show ((tallyBallots (tallyInit v.options) (v.ballots.map Prod.snd)).map Prod.snd).sum = _
    rw [htally, List.map_map]
    have : (v.options.map (Prod.snd ∘ fun o => (o.key, (v.ballots.map Prod.snd).count o.key)))
        = ((v.options.map VoteOption.key).map fun k => (v.ballots.map Prod.snd).count k) := by
      rw [List.map_map]
      apply List.map_congr_left
      intro o _
      simp
    rw [this, sum_counts _ _ hnd hchoices, List.length_map]
  · refine ⟨B.1, ?_, ?_, ?_, ?_⟩
    · show maxKey (tallyBallots (tallyInit v.options) (v.ballots.map Prod.snd)) = some B.1
      rw [htally]
      exact hmax
    · rw [hB1]
      exact List.mem_map_of_mem VoteOption.key how
    · intro o ho
      have := hBle _ (List.mem_map_of_mem
        (fun o => (o.key, (v.ballots.map Prod.snd).count o.key)) ho)
      rw [hB2] at this
      exact this
    · rw [find?_map'] at hBfind
      rcases Option.map_eq_some'.mp hBfind with ⟨o', ho', hfo'⟩
      have ho'' : v.options.find? (fun o =>
          decide ((v.ballots.map Prod.snd).count o.key =
            (v.ballots.map Prod.snd).count B.1)) = some o' := by
        rw [← ho']
        apply find?_congr'
        intro a _
        rw [hB2]
      rw [ho'']
      have : o'.key = B.1 := congrArg Prod.fst hfo'
      rw [Option.map_some', this]

/-- Concrete vote used by the C1 witness (spec scenario 4: options A, B, C
and ballots u1 : A, u2 : A, u3 : B). -/
def c1SampleVote : Vote :=
  { id := "vote_1"
    description := "冲突"
    options := [⟨"A", "采用"⟩, ⟨"B", "保留"⟩, ⟨"C", "折中"⟩]
    ballots := [("u1", "A"), ("u2", "A"), ("u3", "B")]
    status := "open"
    result := none
    related_idea_id := "" }

/-- Witness for C1 at spec scenario 4. -/
theorem c1_close_vote_tally_witness :
    ([c1SampleVote].find? (fun x => decide (x.id = c1SampleVote.id)) = some c1SampleVote ∧
      c1SampleVote.status ≠ "closed" ∧
      c1SampleVote.ballots ≠ [] ∧
      (∀ b ∈ c1SampleVote.ballots, b.2 ∈ c1SampleVote.options.map VoteOption.key) ∧
      (c1SampleVote.options.map VoteOption.key).Nodup) ∧
    (∃ res : VoteResult,
      (close_vote [c1SampleVote] c1SampleVote.id).1 = some (closeVoteCalc c1SampleVote) ∧
      (closeVoteCalc c1SampleVote).result = some res ∧
      (∀ o ∈ c1SampleVote.options,
        PyDict.get? res.tally o.key =
          some ((c1SampleVote.ballots.map Prod.snd).count o.key)) ∧
      (res.tally.map Prod.snd).sum = c1SampleVote.ballots.length ∧
      ∃ w, res.winner = some w ∧ w ∈ c1SampleVote.options.map VoteOption.key ∧
        (∀ o ∈ c1SampleVote.options,
          (c1SampleVote.ballots.map Prod.snd).count o.key ≤
            (c1SampleVote.ballots.map Prod.snd).count w) ∧
        (c1SampleVote.options.find? (fun o =>
            decide ((c1SampleVote.ballots.map Prod.snd).count o.key =
              (c1SampleVote.ballots.map Prod.snd).count w))).map VoteOption.key = some w) :=
  ⟨⟨by decide, by decide, by decide, by decide, by decide⟩,
    c1_close_vote_tally [c1SampleVote] c1SampleVote
      (by decide) (by decide) (by decide) (by decide) (by decide)⟩

/-- Concrete open vote with one recorded ballot (`u1 : A`), used to show
that re-casting the same option still reports a changed prior choice. -/
def c3RecastVote : Vote :=
  { id := "vote_3"
    description := ""
    options := [⟨"A", "采用"⟩]
    ballots := [("u1", "A")]
    status := "open"
    result := none
    related_idea_id := "" }

/-- C3 counterexample: when user `u1`, whose recorded ballot is already
`A`, casts `A` again, `cast_vote` answers with the changed-prior-choice
message (`已将投票从 A 改为 A`) although the stored ballot map is exactly
as before — the return reports that a prior ballot existed, not that this
cast changed the user's choice. -/
theorem c3_cast_vote_counterexample :
    (cast_vote [c3RecastVote] "vote_3" "u1" "A").1 = (true, "已将投票从 A 改为 A") ∧
    (cast_vote [c3RecastVote] "vote_3" "u1" "A").2 = [c3RecastVote] := by
  constructor <;> rfl

/-- C3 (amended): for every existing vote, `cast_vote` fails when the
vote's status is not `open`, fails when the option key is not among the
declared option keys, and otherwise upserts the ballot for that user
(keeping at most one ballot per user); its return reports whether the
user had a prior non-empty ballot — the changed-from message is produced
whenever such a ballot existed, even when the new choice equals the old
one. -/
theorem c3_cast_vote_amended (votes : List Vote) (v : Vote)
    (vote_id user_id option_key : String)
    (hfind : votes.find? (fun x => decide (x.id = vote_id)) = some v) :
    (v.status ≠ "open" →
      cast_vote votes vote_id user_id option_key = ((false, "投票已结束"), votes)) ∧
    (v.status = "open" → option_key ∉ v.options.map VoteOption.key →
      (cast_vote votes vote_id user_id option_key).1.1 = false ∧
      (cast_vote votes vote_id user_id option_key).2 = votes) ∧
    (v.status = "open" → option_key ∈ v.options.map VoteOption.key →
      ∃ l1 l2, votes = l1 ++ v :: l2 ∧
        (cast_vote votes vote_id user_id option_key).2 =
          l1 ++ { v with ballots := PyDict.set v.ballots user_id option_key } :: l2 ∧
        ((PyDict.keys v.ballots).Nodup →
          (PyDict.keys (PyDict.set v.ballots user_id option_key)).Nodup) ∧
        PyDict.get? (PyDict.set v.ballots user_id option_key) user_id = some option_key ∧
        (cast_vote votes vote_id user_id option_key).1 =
          (true,
            match PyDict.get? v.ballots user_id with
            | some s =>
                if s ≠ "" then "已将投票从 " ++ s ++ " 改为 " ++ option_key
                else "投票成功：" ++ option_key
            | none => "投票成功：" ++ option_key)) := by
  induction votes with
  | nil => simp [List.find?] at hfind
  | cons x rest ih =>
    by_cases hx : x.id = vote_id
    · rw [List.find?_cons_of_pos _ (by simpa using hx)] at hfind
      have hxv : x = v := by injection hfind
      subst x
      refine ⟨?_, ?_, ?_⟩
      · intro hst
        simp [cast_vote, hx, hst]
      · intro hst hkey
        constructor <;> simp [cast_vote, hx, hst, hkey]
      · intro hst hkey
        refine ⟨[], rest, rfl, ?_,
          fun hnd => PyDict.nodup_keys_set _ _ hnd, PyDict.get?_set_self _ _ _, ?_⟩
        · cases hov : PyDict.get? v.ballots user_id with
          | none => simp [cast_vote, hx, hst, hkey, hov]
          | some s =>
            by_cases hs : s = "" <;> simp [cast_vote, hx, hst, hkey, hov, hs]
        · cases hov : PyDict.get? v.ballots user_id with
          | none => simp [cast_vote, hx, hst, hkey, hov]
          | some s =>
            by_cases hs : s = "" <;> simp [cast_vote, hx, hst, hkey, hov, hs]
    · rw [List.find?_cons_of_neg _ (by simpa using hx)] at hfind
      obtain ⟨h1, h2, h3⟩ := ih hfind
      refine ⟨?_, ?_, ?_⟩
      · intro hst
        simp only [cast_vote, if_neg hx, h1 hst]
      · intro hst hkey
        obtain ⟨ha, hb⟩ := h2 hst hkey
        constructor
        · simp only [cast_vote, if_neg hx]
          exact ha
        · simp only [cast_vote, if_neg hx, hb]
      · intro hst hkey
        obtain ⟨l1, l2, hsplit, hsave, hndp, hget, hret⟩ := h3 hst hkey
        refine ⟨x :: l1, l2, by rw [hsplit]; rfl, ?_, hndp, hget, ?_⟩
        · simp only [cast_vote, if_neg hx, hsave]
          rfl
        · simp only [cast_vote, if_neg hx]
          exact hret

/-- Concrete open vote used by the C3 witness: user `u1` has a prior
ballot `B` and re-casts `A`. -/
def c3SampleVote : Vote :=
  { id := "vote_2"
    description := ""
    options := [⟨"A", "采用"⟩, ⟨"B", "保留"⟩]
    ballots := [("u1", "B")]
    status := "open"
    result := none
    related_idea_id := "" }

/-- Witness for the amended C3 at a concrete store. -/
theorem c3_cast_vote_amended_witness :
    ([c3SampleVote].find? (fun x => decide (x.id = "vote_2")) = some c3SampleVote) ∧
    ((c3SampleVote.status ≠ "open" →
      cast_vote [c3SampleVote] "vote_2" "u1" "A" = ((false, "投票已结束"), [c3SampleVote])) ∧
    (c3SampleVote.status = "open" → "A" ∉ c3SampleVote.options.map VoteOption.key →
      (cast_vote [c3SampleVote] "vote_2" "u1" "A").1.1 = false ∧
      (cast_vote [c3SampleVote] "vote_2" "u1" "A").2 = [c3SampleVote]) ∧
    (c3SampleVote.status = "open" → "A" ∈ c3SampleVote.options.map VoteOption.key →
      ∃ l1 l2, [c3SampleVote] = l1 ++ c3SampleVote :: l2 ∧
        (cast_vote [c3SampleVote] "vote_2" "u1" "A").2 =
          l1 ++ { c3SampleVote with
            ballots := PyDict.set c3SampleVote.ballots "u1" "A" } :: l2 ∧
        ((PyDict.keys c3SampleVote.ballots).Nodup →
          (PyDict.keys (PyDict.set c3SampleVote.ballots "u1" "A")).Nodup) ∧
        PyDict.get? (PyDict.set c3SampleVote.ballots "u1" "A") "u1" = some "A" ∧
        (cast_vote [c3SampleVote] "vote_2" "u1" "A").1 =
          (true,
            match PyDict.get? c3SampleVote.ballots "u1" with
            | some s =>
                if s ≠ "" then "已将投票从 " ++ s ++ " 改为 " ++ "A"
                else "投票成功：" ++ "A"
            | none => "投票成功：" ++ "A"))) :=
  ⟨by decide, c3_cast_vote_amended [c3SampleVote] c3SampleVote "vote_2" "u1" "A" (by decide)⟩

/-! ## Idea manager (`idea_manager.py`) -/

/-- One entry appended to an idea's `scores` list by `score_idea`. -/
structure JudgeScore where
  ai_id : Nat
  model_name : String
  score : ℚ
  originality : ℚ
  coherence : ℚ
  narrative_value : ℚ
  reason : String
  deriving DecidableEq

/-- One record of `ideas.json`.  Fields the modelled operations never read
or write (timestamps, `conflict_info`, `votes`) are omitted. -/
structure Idea where
  id : String
  author : String
  author_id : String
  content : String
  type : String
  scores : List JudgeScore
  weighted_avg : ℚ
  status : String
  deriving DecidableEq

/-- Parsed judge response that contains an `overall` key (numeric scores
are modelled as exact rationals). -/
structure ScoreResult where
  overall : ℚ
  originality : Option ℚ
  coherence : Option ℚ
  narrative_value : Option ℚ
  reason : Option String
  deriving DecidableEq

instance exceptDecEq {ε α : Type} [DecidableEq ε] [DecidableEq α] :
    DecidableEq (Except ε α)
  | .error e, .error f =>
      if h : e = f then .isTrue (by rw [h]) else .isFalse (by simp [h])
  | .error _, .ok _ => .isFalse (by simp)
  | .ok _, .error _ => .isFalse (by simp)
  | .ok a, .ok b =>
      if h : a = b then .isTrue (by rw [h]) else .isFalse (by simp [h])

/-- Outcome of one judge call in `score_idea`: `resp = .error e` models a
call that raised, `.ok none` a response whose parse yielded no usable
structure with an `overall` key, `.ok (some r)` a usable response. -/
structure JudgeOutcome where
  model_name : String
  resp : Except String (Option ScoreResult)
  deriving DecidableEq

/-- The scoring loop of `score_idea` (`for idx, prov in enumerate(providers, 1)`),
starting at judge index `idx`: failed or unparseable judges append
nothing, usable judges append a score entry. -/
def collectScoresFrom : Nat → List JudgeOutcome → List JudgeScore
  | _, [] => []
  | idx, j :: rest =>
      match j.resp with
      | .ok (some r) =>
          { ai_id := idx
            model_name := j.model_name
            score := r.overall
            originality := r.originality.getD 0
            coherence := r.coherence.getD 0
            narrative_value := r.narrative_value.getD 0
            reason := r.reason.getD "" } :: collectScoresFrom (idx + 1) rest
      | _ => collectScoresFrom (idx + 1) rest

/-- The full scoring loop of `score_idea` (judge indices start at 1). -/
def collectScores (judges : List JudgeOutcome) : List JudgeScore :=
  collectScoresFrom 1 judges

/-- Python `round(q)` on an exact rational: round half to even. -/
def roundHalfEven (q : ℚ) : ℤ :=
  let f := ⌊q⌋
  if q - f < 1 / 2 then f
  else if q - f > 1 / 2 then f + 1
  else if f % 2 = 0 then f else f + 1

/-- Python `round(q, 1)` on an exact rational. -/
def pyRound1 (q : ℚ) : ℚ := (roundHalfEven (q * 10) : ℚ) / 10

/-- `IdeaManager.score_idea`: find the idea by id, run every judge, and
store the rounded mean of the scores of the judges that succeeded
(`weighted_avg = 0.0` when none did; `scores` is only overwritten when at
least one judge succeeded, mirroring the `if scores:` branch). -/
def score_idea : List Idea → String → List JudgeOutcome → Option Idea × List Idea
  | [], _, _ => (none, [])
  | i :: rest, idea_id, judges =>
      if i.id = idea_id then
        let scores := collectScores judges
        let i' :=
          if scores ≠ [] then
            { i with
              scores := scores
              weighted_avg :=
                pyRound1 ((scores.map JudgeScore.score).sum / (scores.length : ℚ)) }
          else { i with weighted_avg := 0 }
        (some i', i' :: rest)
      else
        let r := score_idea rest idea_id judges
        (r.1, i :: r.2)

/-- The walk of `apply_vote_result` over the idea list: the first idea
whose id matches the vote's `related_idea_id` is updated according to the
winner key. -/
def applyVoteWalk : List Idea → Vote → Option String → String × List Idea
  | [], _, _ => ("未找到关联创意", [])
  | i :: rest, vote, winner =>
      if i.id = vote.related_idea_id then
        if winner = some "A" then
          ("✅ 创意已采纳：" ++ pyTake 50 i.content, { i with status := "approved" } :: rest)
        else if winner = some "B" then
          ("❌ 创意已拒绝：" ++ pyTake 50 i.content, { i with status := "rejected" } :: rest)
        else if winner = some "C" then
          ("🔄 采用折中方案",
            { i with
              status := "approved"
              content := i.content ++ "\n[折中修改] " ++
                (vote.options.getD 2 ⟨"", ""⟩).label } :: rest)
        else ("未知投票结果", i :: rest)
      else
        let r := applyVoteWalk rest vote winner
        (r.1, i :: r.2)

/-- `IdeaManager.apply_vote_result`: read the winner out of the vote's
result, reject an empty `related_idea_id` (Python falsiness), then apply
the winner to the first matching idea.  `vote["options"][2]` is modelled
with `getD`; the source raises `IndexError` when fewer than three options
exist, so theorems about the compromise branch assume three options. -/
def apply_vote_result (ideas : List Idea) (vote : Vote) : String × List Idea :=
  let winner : Option String :=
    match vote.result with
    | some r => r.winner
    | none => none
  if vote.related_idea_id = "" then ("投票未关联创意", ideas)
  else applyVoteWalk ideas vote winner

/-- The scores collected by the loop are exactly the `overall` values of
the judges that succeeded, in order. -/
theorem collectScoresFrom_map_score (judges : List JudgeOutcome) :
    ∀ n : Nat, (collectScoresFrom n judges).map JudgeScore.score =
      judges.filterMap (fun j =>
        match j.resp with
        | .ok (some r) => some r.overall
        | _ => none) := by
  induction judges with
  | nil => intro n; rfl
  | cons j rest ih =>
    intro n
    cases hr : j.resp with
    | error e => simp [collectScoresFrom, hr, List.filterMap_cons, ih]
    | ok o =>
      cases o with
      | none => simp [collectScoresFrom, hr, List.filterMap_cons, ih]
      | some r => simp [collectScoresFrom, hr, List.filterMap_cons, ih]

/-- C2: for every idea scored by `score_idea`, a judge whose call raised
or whose response has no parseable `overall` contributes nothing to the
aggregation; with at least one successful judge the stored
`weighted_avg` is the arithmetic mean of the successful scores rounded
to one decimal (Python `round`, half to even); with zero successful
judges it is `0.0`. -/
theorem c2_score_idea (ideas : List Idea) (i : Idea) (judges : List JudgeOutcome)
    (hfind : ideas.find? (fun x => decide (x.id = i.id)) = some i) :
    ∃ i', (score_idea ideas i.id judges).1 = some i' ∧
      (judges.filterMap (fun j =>
          match j.resp with
          | .ok (some r) => some r.overall
          | _ => none) = [] → i'.weighted_avg = 0) ∧
      (∀ valid, judges.filterMap (fun j =>
          match j.resp with
          | .ok (some r) => some r.overall
          | _ => none) = valid → valid ≠ [] →
        i'.scores.map JudgeScore.score = valid ∧
        i'.weighted_avg = pyRound1 (valid.sum / (valid.length : ℚ))) := by
  induction ideas with
  | nil => simp [List.find?] at hfind
  | cons x rest ih =>
    by_cases hx : x.id = i.id
    · rw [List.find?_cons_of_pos _ (by simpa using hx)] at hfind
      have hxv : x = i := by injection hfind
      subst x
      have hmap := collectScoresFrom_map_score judges 1
      by_cases hsc : collectScores judges = []
      · refine ⟨{ i with weighted_avg := 0 }, ?_, ?_, ?_⟩
        · simp [score_idea, hx, hsc]
        · intro _
          rfl
        · intro valid hvalid hne
          exfalso
          have hsc' : collectScoresFrom 1 judges = [] := hsc
          rw [← hvalid, ← hmap, hsc'] at hne
          exact hne rfl
      · refine ⟨{ i with
            scores := collectScores judges
            weighted_avg := pyRound1 (((collectScores judges).map JudgeScore.score).sum /
              (((collectScores judges).map JudgeScore.score).length : ℚ)) }, ?_, ?_, ?_⟩
        · simp [score_idea, hsc, List.length_map]
        · intro hval
          exfalso
          have hsc' : collectScoresFrom 1 judges = [] :=
            List.map_eq_nil_iff.mp (by rw [hmap]; exact hval)
          exact hsc hsc'
        · intro valid hvalid hne
          constructor
          · show (collectScores judges).map JudgeScore.score = valid
            rw [← hvalid]
            exact hmap
          · show pyRound1 _ = _
            rw [← hvalid, ← hmap]
            rfl
    · rw [List.find?_cons_of_neg _ (by simpa using hx)] at hfind
      obtain ⟨i', hi', h0, hs⟩ := ih hfind
      exact ⟨i', by simp [score_idea, hx, hi'], h0, hs⟩

/-- Concrete pending idea used by the C2 witness. -/
def c2SampleIdea : Idea :=
  { id := "idea_1"
    author := "alice"
    author_id := "10001"
    content := "主角获得一把会说话的剑"
    type := "plot"
    scores := []
    weighted_avg := 0
    status := "pending" }

/-- Concrete judge outcomes for the C2 witness: judge 1 scores 80,
judge 2 raises, judge 3 returns an unparseable response, judge 4 scores
70; the mean over the two successes is 75. -/
def c2Judges : List JudgeOutcome :=
  [{ model_name := "model-a", resp := .ok (some ⟨80, some 8, some 7, some 9, some "好"⟩) },
   { model_name := "model-b", resp := .error "timeout" },
   { model_name := "model-c", resp := .ok none },
   { model_name := "model-d", resp := .ok (some ⟨70, none, none, none, none⟩) }]

/-- Witness for C2: two of four judges succeed and the stored average is
`round(mean [80, 70], 1) = 75`. -/
theorem c2_score_idea_witness :
    ([c2SampleIdea].find? (fun x => decide (x.id = c2SampleIdea.id)) = some c2SampleIdea) ∧
    (∃ i', (score_idea [c2SampleIdea] c2SampleIdea.id c2Judges).1 = some i' ∧
      (c2Judges.filterMap (fun j =>
          match j.resp with
          | .ok (some r) => some r.overall
          | _ => none) = [] → i'.weighted_avg = 0) ∧
      (∀ valid, c2Judges.filterMap (fun j =>
          match j.resp with
          | .ok (some r) => some r.overall
          | _ => none) = valid → valid ≠ [] →
        i'.scores.map JudgeScore.score = valid ∧
        i'.weighted_avg = pyRound1 (valid.sum / (valid.length : ℚ)))) :=
  ⟨by decide, c2_score_idea [c2SampleIdea] c2SampleIdea c2Judges (by decide)⟩

theorem applyVoteWalk_spec (ideas : List Idea) (i : Idea) (vote : Vote) (w : Option String)
    (hrel : vote.related_idea_id = i.id)
    (hfind : ideas.find? (fun x => decide (x.id = i.id)) = some i) :
    ∃ l1 l2, ideas = l1 ++ i :: l2 ∧
      (w = some "A" → applyVoteWalk ideas vote w =
        ("✅ 创意已采纳：" ++ pyTake 50 i.content, l1 ++ { i with status := "approved" } :: l2)) ∧
      (w = some "B" → applyVoteWalk ideas vote w =
        ("❌ 创意已拒绝：" ++ pyTake 50 i.content, l1 ++ { i with status := "rejected" } :: l2)) ∧
      (w = some "C" → applyVoteWalk ideas vote w =
        ("🔄 采用折中方案",
          l1 ++ { i with
            status := "approved"
            content := i.content ++ "\n[折中修改] " ++
              (vote.options.getD 2 ⟨"", ""⟩).label } :: l2)) := by
  induction ideas with
  | nil => simp [List.find?] at hfind
  | cons x rest ih =>
    by_cases hx : x.id = i.id
    · rw [List.find?_cons_of_pos _ (by simpa using hx)] at hfind
      have hxv : x = i := by injection hfind
      subst x
      refine ⟨[], rest, rfl, ?_, ?_, ?_⟩
      · intro hw
        simp only [applyVoteWalk]
        rw [hrel, if_pos rfl, hw, if_pos rfl]
        simp
      · intro hw
        simp only [applyVoteWalk]
        rw [hrel, if_pos rfl, hw, if_neg (by decide), if_pos rfl]
        simp
      · intro hw
        simp only [applyVoteWalk]
        rw [hrel, if_pos rfl, hw, if_neg (by decide), if_neg (by decide), if_pos rfl]
        simp
    · rw [List.find?_cons_of_neg _ (by simpa using hx)] at hfind
      obtain ⟨l1, l2, hsplit, hA, hB, hC⟩ := ih hfind
      have hxne : ¬ (x.id = vote.related_idea_id) := by
        rw [hrel]
        exact hx
      refine ⟨x :: l1, l2, by rw [hsplit]; rfl, ?_, ?_, ?_⟩
      · intro hw
        simp only [applyVoteWalk, if_neg hxne, hA hw]
        rfl
      · intro hw
        simp only [applyVoteWalk, if_neg hxne, hB hw]
        rfl
      · intro hw
        simp only [applyVoteWalk, if_neg hxne, hC hw]
        rfl

/-- C4: for every closed conflict vote linked to an existing idea,
`apply_vote_result` sets the idea's status to `approved` when the winner
is the accept-new option A, to `rejected` when the winner is the keep-old
option B, and to `approved` when the winner is the compromise option C;
in the compromise case the amendment note is appended and the entire
original content remains a prefix of the new content. -/
theorem c4_apply_vote_result (ideas : List Idea) (i : Idea) (vote : Vote) (res : VoteResult)
    (hres : vote.result = some res)
    (hrel : vote.related_idea_id = i.id)
    (hid : i.id ≠ "")
    (hfind : ideas.find? (fun x => decide (x.id = i.id)) = some i) :
    ∃ l1 l2, ideas = l1 ++ i :: l2 ∧
      (res.winner = some "A" → apply_vote_result ideas vote =
        ("✅ 创意已采纳：" ++ pyTake 50 i.content, l1 ++ { i with status := "approved" } :: l2)) ∧
      (res.winner = some "B" → apply_vote_result ideas vote =
        ("❌ 创意已拒绝：" ++ pyTake 50 i.content, l1 ++ { i with status := "rejected" } :: l2)) ∧
      (res.winner = some "C" →
        apply_vote_result ideas vote =
          ("🔄 采用折中方案",
            l1 ++ { i with
              status := "approved"
              content := i.content ++ "\n[折中修改] " ++
                (vote.options.getD 2 ⟨"", ""⟩).label } :: l2) ∧
        ∃ t, i.content ++ t =
          i.content ++ "\n[折中修改] " ++ (vote.options.getD 2 ⟨"", ""⟩).label) := by
  have hrel' : vote.related_idea_id ≠ "" := by
    rw [hrel]
    exact hid
  obtain ⟨l1, l2, hsplit, hA, hB, hC⟩ := applyVoteWalk_spec ideas i vote res.winner hrel hfind
  have hav : apply_vote_result ideas vote = applyVoteWalk ideas vote res.winner := by
    simp only [apply_vote_result, hres]
    rw [if_neg hrel']
  refine ⟨l1, l2, hsplit, ?_, ?_, ?_⟩
  · intro hw
    rw [hav]
    exact hA hw
  · intro hw
    rw [hav]
    exact hB hw
  · intro hw
    refine ⟨by rw [hav]; exact hC hw, ⟨"\n[折中修改] " ++ (vote.options.getD 2 ⟨"", ""⟩).label, ?_⟩⟩
    rw [← String.append_assoc]

/-- Concrete conflicted idea used by the C4 witness. -/
def c4SampleIdea : Idea :=
  { id := "idea_2"
    author := "bob"
    author_id := "10002"
    content := "引入新的魔法体系"
    type := "setting"
    scores := []
    weighted_avg := 0
    status := "conflict" }

/-- Concrete closed conflict vote (winner C, the compromise option) used
by the C4 witness. -/
def c4SampleVote : Vote :=
  { id := "vote_4"
    description := "创意冲突"
    options := [⟨"A", "采用新创意"⟩, ⟨"B", "保留旧设定"⟩, ⟨"C", "折中方案：局部引入"⟩]
    ballots := [("u1", "C")]
    status := "closed"
    result := some ⟨[("A", 0), ("B", 0), ("C", 1)], some "C", "折中方案：局部引入", 1⟩
    related_idea_id := "idea_2" }

/-- Witness for C4 at a concrete store whose vote was won by the
compromise option. -/
theorem c4_apply_vote_result_witness :
    (c4SampleVote.result = some ⟨[("A", 0), ("B", 0), ("C", 1)], some "C", "折中方案：局部引入", 1⟩ ∧
      c4SampleVote.related_idea_id = c4SampleIdea.id ∧
      c4SampleIdea.id ≠ "" ∧
      [c4SampleIdea].find? (fun x => decide (x.id = c4SampleIdea.id)) = some c4SampleIdea) ∧
    (∃ l1 l2, [c4SampleIdea] = l1 ++ c4SampleIdea :: l2 ∧
      ((some "C" : Option String) = some "A" → apply_vote_result [c4SampleIdea] c4SampleVote =
        ("✅ 创意已采纳：" ++ pyTake 50 c4SampleIdea.content,
          l1 ++ { c4SampleIdea with status := "approved" } :: l2)) ∧
      ((some "C" : Option String) = some "B" → apply_vote_result [c4SampleIdea] c4SampleVote =
        ("❌ 创意已拒绝：" ++ pyTake 50 c4SampleIdea.content,
          l1 ++ { c4SampleIdea with status := "rejected" } :: l2)) ∧
      ((some "C" : Option String) = some "C" →
        apply_vote_result [c4SampleIdea] c4SampleVote =
          ("🔄 采用折中方案",
            l1 ++ { c4SampleIdea with
              status := "approved"
              content := c4SampleIdea.content ++ "\n[折中修改] " ++
                (c4SampleVote.options.getD 2 ⟨"", ""⟩).label } :: l2) ∧
        ∃ t, c4SampleIdea.content ++ t =
          c4SampleIdea.content ++ "\n[折中修改] " ++
            (c4SampleVote.options.getD 2 ⟨"", ""⟩).label)) :=
  ⟨⟨rfl, rfl, by decide, by decide⟩,
    c4_apply_vote_result [c4SampleIdea] c4SampleIdea c4SampleVote _ rfl rfl (by decide) (by decide)⟩

/-! ## Chat-novel engine (`chat_novel.py`) -/

/-- One entry of the chat novel's `characters` list; `locked` is absent in
freshly inserted entries, which JSON-truthiness treats as `False`. -/
structure ChatCharacter where
  real_name : String
  novel_name : String
  description : String
  sender_id : String
  locked : Bool
  deriving DecidableEq

/-- A candidate character dict handed to `_update_characters` (built by
`_map_new_characters`: `real_name`, `novel_name`, `description`,
`sender_id`). -/
structure CharDraft where
  real_name : String
  novel_name : String
  description : String
  sender_id : String
  deriving DecidableEq

/-- Inserting a draft appends the dict itself; it carries no `locked`
key, so the stored `locked` flag is falsy. -/
def draftToCharacter (d : CharDraft) : ChatCharacter :=
  { real_name := d.real_name
    novel_name := d.novel_name
    description := d.description
    sender_id := d.sender_id
    locked := false }

/-- Shared shape of the three `for e in existing: if <match>: if locked:
break; <write fields>; break` loops: the first entry satisfying `cond` is
rewritten by `write` unless it is locked; everything else is untouched. -/
def pyUpdateFirst (cond : ChatCharacter → Bool)
    (write : ChatCharacter → ChatCharacter) :
    List ChatCharacter → List ChatCharacter
  | [] => []
  | c :: rest =>
      if cond c then (if c.locked then c else write c) :: rest
      else c :: pyUpdateFirst cond write rest

/-- The `sender_id` update branch of `_update_characters`: the first
entry with this `sender_id` gets non-empty incoming `description` and
`novel_name` written, unless it is locked (the loop `break`s without
writing). -/
def updateFirstBySid (sid : String) (d : CharDraft)
    (l : List ChatCharacter) : List ChatCharacter :=
  pyUpdateFirst (fun e => decide (e.sender_id = sid))
    (fun e =>
      { e with
        description := if d.description ≠ "" then d.description else e.description
        novel_name := if d.novel_name ≠ "" then d.novel_name else e.novel_name }) l

/-- The `real_name` dedup branch of `_update_characters`: only the
description is written, and locked entries are skipped. -/
def updateFirstByName (rname : String) (d : CharDraft)
    (l : List ChatCharacter) : List ChatCharacter :=
  pyUpdateFirst (fun e => decide (e.real_name = rname))
    (fun e =>
      { e with
        description := if d.description ≠ "" then d.description else e.description }) l

/-- One iteration of the `for ch in new_chars` loop of
`_update_characters`, acting on the current `(existing, existing_ids,
existing_names)` state. -/
def updateCharactersStep (st : List ChatCharacter × List String × List String)
    (ch : CharDraft) : List ChatCharacter × List String × List String :=
  let existing := st.1
  let ids := st.2.1
  let names := st.2.2
  if ch.sender_id ≠ "" ∧ ch.sender_id ∈ ids then
    (updateFirstBySid ch.sender_id ch existing, ids, names)
  else if ch.real_name ≠ "" ∧ ch.real_name ∈ names then
    (updateFirstByName ch.real_name ch existing, ids, names)
  else
    (existing ++ [draftToCharacter ch], ch.sender_id :: ids, ch.real_name :: names)

/-- `ChatNovelEngine._update_characters` (the merge): `existing_ids` and
`existing_names` are Python sets, modelled as lists used only through
membership. -/
def update_characters (existing : List ChatCharacter) (new_chars : List CharDraft) :
    List ChatCharacter :=
  (new_chars.foldl updateCharactersStep
    (existing, existing.map ChatCharacter.sender_id,
      existing.map ChatCharacter.real_name)).1

/-- One entry of a generation result's `character_updates` list (missing
keys default to the empty string through `.get(..., "")`). -/
structure CharUpdate where
  real_name : String
  novel_name : String
  description : String
  deriving DecidableEq

/-- Applying one character update inside `generate_chapter`: the first
character matching by real or novel name gets a non-empty description
written unless it is locked. -/
def applyCharUpdate (cu : CharUpdate) (l : List ChatCharacter) : List ChatCharacter :=
  pyUpdateFirst
    (fun c => decide (c.real_name = cu.real_name ∨ c.novel_name = cu.novel_name))
    (fun c =>
      { c with
        description := if cu.description ≠ "" then cu.description else c.description }) l

/-- The `for cu in result["character_updates"]` loop of `generate_chapter`. -/
def applyCharacterUpdates (chars : List ChatCharacter) (cus : List CharUpdate) :
    List ChatCharacter :=
  cus.foldl (fun cs cu => applyCharUpdate cu cs) chars

/-- `ChatNovelEngine.update_character_desc`: explicit user edit; the
first character matching by real or novel name gets its description
overwritten with no lock check. -/
def update_character_desc (chars : List ChatCharacter) (name new_desc : String) :
    Option ChatCharacter × List ChatCharacter :=
  match chars with
  | [] => (none, [])
  | c :: rest =>
      if c.real_name = name ∨ c.novel_name = name then
        let c' := { c with description := new_desc }
        (some c', c' :: rest)
      else
        let r := update_character_desc rest name new_desc
        (r.1, c :: r.2)

theorem pyUpdateFirst_locked (cond : ChatCharacter → Bool)
    (write : ChatCharacter → ChatCharacter) (l : List ChatCharacter) :
    ∀ (i : Nat) (e : ChatCharacter), l[i]? = some e → e.locked = true →
      (pyUpdateFirst cond write l)[i]? = some e := by
  induction l with
  | nil =>
    intro i e h _
    simp at h
  | cons c rest ih =>
    intro i e hget hlock
    rw [pyUpdateFirst]
    by_cases hc : cond c
    · rw [if_pos hc]
      cases i with
      | zero =>
        have hce : c = e := by simpa using hget
        subst c
        rw [if_pos hlock]
        simp
      | succ j => simpa using (by simpa using hget : rest[j]? = some e)
    · rw [if_neg hc]
      cases i with
      | zero => simpa using hget
      | succ j => simpa using ih j e (by simpa using hget) hlock

theorem update_characters_locked_aux (new_chars : List CharDraft) :
    ∀ (st : List ChatCharacter × List String × List String) (i : Nat) (e : ChatCharacter),
      st.1[i]? = some e → e.locked = true →
      (new_chars.foldl updateCharactersStep st).1[i]? = some e := by
  induction new_chars with
  | nil =>
    intro st i e h _
    simpa using h
  | cons d rest ih =>
    intro st i e hget hlock
    rw [List.foldl_cons]
    apply ih _ i e _ hlock
    obtain ⟨ex, ids, names⟩ := st
    simp only [updateCharactersStep]
    by_cases h1 : d.sender_id ≠ "" ∧ d.sender_id ∈ ids
    · rw [if_pos h1]
      exact pyUpdateFirst_locked _ _ ex i e hget hlock
    · rw [if_neg h1]
      by_cases h2 : d.real_name ≠ "" ∧ d.real_name ∈ names
      · rw [if_pos h2]
        exact pyUpdateFirst_locked _ _ ex i e hget hlock
      · rw [if_neg h2]
        have hi : i < ex.length := by
          rcases List.getElem?_eq_some.mp hget with ⟨h, _⟩
          exact h
        rw [List.getElem?_append_left hi]
        exact hget

theorem applyCharacterUpdates_locked (cus : List CharUpdate) :
    ∀ (chars : List ChatCharacter) (i : Nat) (e : ChatCharacter),
      chars[i]? = some e → e.locked = true →
      (applyCharacterUpdates chars cus)[i]? = some e := by
  induction cus with
  | nil =>
    intro chars i e h _
    simpa [applyCharacterUpdates] using h
  | cons cu rest ih =>
    intro chars i e hget hlock
    exact ih _ i e (pyUpdateFirst_locked _ _ chars i e hget hlock) hlock

theorem update_character_desc_first (chars : List ChatCharacter) :
    ∀ (i : Nat) (e : ChatCharacter) (name nd : String),
      chars[i]? = some e →
      (e.real_name = name ∨ e.novel_name = name) →
      (∀ j c, j < i → chars[j]? = some c →
        ¬(c.real_name = name ∨ c.novel_name = name)) →
      (update_character_desc chars name nd).1 = some { e with description := nd } ∧
      ((update_character_desc chars name nd).2)[i]? =
        some { e with description := nd } := by
  induction chars with
  | nil =>
    intro i e name nd h
    simp at h
  | cons c rest ih =>
    intro i e name nd hget hmatch hfirst
    cases i with
    | zero =>
      have hce : c = e := by simpa using hget
      subst c
      constructor <;> simp [update_character_desc, hmatch]
    | succ j =>
      have hc : ¬(c.real_name = name ∨ c.novel_name = name) :=
        hfirst 0 c (Nat.succ_pos j) (by simp)
      have hget' : rest[j]? = some e := by simpa using hget
      have hfirst' : ∀ k d, k < j → rest[k]? = some d →
          ¬(d.real_name = name ∨ d.novel_name = name) := fun k d hk hkd =>
        hfirst (k + 1) d (Nat.succ_lt_succ hk) (by simpa using hkd)
      obtain ⟨h1, h2⟩ := ih j e name nd hget' hmatch hfirst'
      constructor
      · simp only [update_character_desc, if_neg hc]
        exact h1
      · simp only [update_character_desc, if_neg hc]
        simpa using h2

/-- C5: a locked character is untouched — record for record — by the
automated merge `_update_characters` and by the `character_updates`
application inside `generate_chapter`, for any input; the explicit user
edit `update_character_desc`, however, overwrites the description of
that same locked character (first match by real or novel name) without
requiring an unlock. -/
theorem c5_locked_characters (chars : List ChatCharacter) (i : Nat) (e : ChatCharacter)
    (hget : chars[i]? = some e) (hlock : e.locked = true) :
    (∀ drafts, (update_characters chars drafts)[i]? = some e) ∧
    (∀ cus, (applyCharacterUpdates chars cus)[i]? = some e) ∧
    (∀ name nd, (e.real_name = name ∨ e.novel_name = name) →
      (∀ j c, j < i → chars[j]? = some c →
        ¬(c.real_name = name ∨ c.novel_name = name)) →
      (update_character_desc chars name nd).1 = some { e with description := nd } ∧
      ((update_character_desc chars name nd).2)[i]? =
        some { e with description := nd }) := by
  refine ⟨?_, ?_, ?_⟩
  · intro drafts
    exact update_characters_locked_aux drafts _ i e hget hlock
  · intro cus
    exact applyCharacterUpdates_locked cus chars i e hget hlock
  · intro name nd hmatch hfirst
    exact update_character_desc_first chars i e name nd hget hmatch hfirst

/-- Concrete locked character for the C5 witness (spec scenario 5:
locked "Alice" with description D1). -/
def c5Alice : ChatCharacter :=
  { real_name := "Alice"
    novel_name := "爱丽丝"
    description := "D1"
    sender_id := "10001"
    locked := true }

/-- Witness for C5: an automated merge proposing description D2 leaves
the locked character intact, while the explicit edit sets D2. -/
theorem c5_locked_characters_witness :
    ([c5Alice][0]? = some c5Alice ∧ c5Alice.locked = true) ∧
    ((∀ drafts, (update_characters [c5Alice] drafts)[0]? = some c5Alice) ∧
    (∀ cus, (applyCharacterUpdates [c5Alice] cus)[0]? = some c5Alice) ∧
    (∀ name nd, (c5Alice.real_name = name ∨ c5Alice.novel_name = name) →
      (∀ j c, j < 0 → [c5Alice][j]? = some c →
        ¬(c.real_name = name ∨ c.novel_name = name)) →
      (update_character_desc [c5Alice] name nd).1 =
        some { c5Alice with description := nd } ∧
      ((update_character_desc [c5Alice] name nd).2)[0]? =
        some { c5Alice with description := nd })) :=
  ⟨⟨by decide, by decide⟩, c5_locked_characters [c5Alice] 0 c5Alice (by decide) (by decide)⟩

/-- One buffered message of `chat_messages.json`. -/
structure ChatMessage where
  sender_name : String
  sender_id : String
  content : String
  timestamp : String
  deriving DecidableEq

/-- One generated chapter of the chat novel. -/
structure ChatChapter where
  number : Nat
  title : String
  content : String
  summary : String
  deriving DecidableEq

/-- One user-added custom setting. -/
structure CustomSetting where
  content : String
  added_at : String
  deriving DecidableEq

/-- The chat-novel session state (`chat_novel.json`). -/
structure ChatNovel where
  status : String
  requirements : String
  title : String
  chapters : List ChatChapter
  characters : List ChatCharacter
  global_summary : String
  contributors : List String
  created_at : String
  cover_auto_generate : Bool
  preview_enabled : Bool
  custom_settings : List CustomSetting
  force_ending : Bool
  deriving DecidableEq

/-- `ChatNovelEngine.set_force_ending`. -/
def set_force_ending (novel : ChatNovel) (val : Bool) : ChatNovel :=
  { novel with force_ending := val }

/-- `ChatNovelEngine.get_force_ending`. -/
def get_force_ending (novel : ChatNovel) : Bool :=
  novel.force_ending

/-- Parsed JSON of a chapter-generation response (absent keys are
`none`). -/
structure GenResult where
  chapter_title : Option String
  content : Option String
  summary : Option String
  updated_summary : Option String
  character_updates : Option (List CharUpdate)
  deriving DecidableEq

/-- One character dict of a `_map_new_characters` parse result
(`real_name` defaults to `""`, `novel_name` to the stripped real name,
`description` to `""`). -/
structure MapChar where
  real_name : String
  novel_name : Option String
  description : String
  deriving DecidableEq

/-- The mapping loop of `_map_new_characters`: keep only characters whose
stripped real name is non-empty and among the new participant names. -/
def mapCharsToDrafts (new_names : List String) (chars : List MapChar) :
    List CharDraft :=
  chars.filterMap (fun ch =>
    let real_name := pyStrip ch.real_name
    if real_name = "" ∨ real_name ∉ new_names then none
    else some
      { real_name := real_name
        novel_name := pyStrip (ch.novel_name.getD real_name)
        description := pyStrip ch.description
        sender_id := "" })

/-- `ChatNovelEngine._map_new_characters` as it acts on the session
state: a raised call (`.error`, caught by the caller) or an unparseable
response leave the state unchanged; otherwise the mapped drafts are
merged through `_update_characters` when non-empty. -/
def map_new_characters (novel : ChatNovel) (new_names : List String)
    (resp : Except String (Option (List MapChar))) : ChatNovel :=
  match resp with
  | .error _ => novel
  | .ok none => novel
  | .ok (some chars) =>
      let mapped := mapCharsToDrafts new_names chars
      if mapped ≠ [] then
        { novel with characters := update_characters novel.characters mapped }
      else novel

/-- The `[name]: content` chat log of `generate_chapter` (string built
for the request; the participant set is irrelevant to it). -/
def chatLog (messages : List ChatMessage) : String :=
  String.intercalate "\n"
    (messages.map (fun m => "[" ++ m.sender_name ++ "]: " ++ m.content))

/-- The participants of the buffered messages.  The source collects them
in a Python `set` whose iteration order is unspecified; the embedding
fixes first-appearance order, on which no modelled property depends. -/
def participants (messages : List ChatMessage) : List String :=
  (messages.map ChatMessage.sender_name).eraseDups

/-- The buffered senders that are not yet mapped to characters. -/
def newParticipants (novel : ChatNovel) (messages : List ChatMessage) :
    List String :=
  (participants messages).filter
    (fun p => p ∉ novel.characters.map ChatCharacter.real_name)

/-- The `previous_chapters` context string of `generate_chapter`. -/
def previousChapters (chapters : List ChatChapter) : String :=
  let s := chapters.foldl
    (fun acc ch => acc ++ "第" ++ toString ch.number ++ "章「" ++ ch.title ++ "」："
      ++ ch.summary ++ "\n") ""
  if s = "" then "这是第一章，没有前序章节。" else s

/-- The characters-info context string of `generate_chapter`. -/
def charactersInfo (chars : List ChatCharacter) : String :=
  if chars = [] then "暂无已有角色，请根据群聊参与者创建角色"
  else
    String.intercalate "\n"
      (chars.map (fun c => "- " ++ c.real_name ++ " → 小说名: " ++ c.novel_name
        ++ "，设定: " ++ c.description))

/-- The ending directive injected by `generate_chapter` when
`force_ending` is set (empty otherwise). -/
def endingInstruction (force_ending : Bool) : String :=
  if force_ending then
    "\n## ⚠️ 重要：强制结局要求\n" ++
    "这是本小说的**最后一章**，你必须在本章中为整个故事写出一个完整的结局。\n" ++
    "要求：总结所有主要角色的命运、解决悬而未决的情节线、给出明确的故事结尾。\n" ++
    "结尾要有仪式感，让读者感受到故事的圆满收束。\n\n"
  else ""

/-- The named arguments `generate_chapter` feeds into the generation
prompt template. -/
structure GenRequest where
  novel_title : String
  chapter_number : Nat
  requirements : String
  global_summary : String
  previous_chapters : String
  characters_info : String
  chat_log : String
  new_participants : String
  max_word_count : Nat
  ending_instruction : String
  deriving DecidableEq

/-- The request arguments built at the generation call site (after the
participant-mapping step updated `novel`). -/
def generateRequest (novel : ChatNovel) (messages : List ChatMessage)
    (max_word_count : Nat) (force_ending : Bool) : GenRequest :=
  { novel_title := novel.title
    chapter_number := novel.chapters.length + 1
    requirements := if novel.requirements = "" then "无特殊要求" else novel.requirements
    global_summary := if novel.global_summary = "" then "故事尚未开始" else novel.global_summary
    previous_chapters := previousChapters novel.chapters
    characters_info := charactersInfo novel.characters
    chat_log := pyTake 6000 (chatLog messages)
    new_participants :=
      if newParticipants novel messages = [] then "无新参与者"
      else String.intercalate "、" (newParticipants novel messages)
    max_word_count := max_word_count
    ending_instruction := endingInstruction force_ending }

/-- Environment of one `generate_chapter` run: the outcome of the
participant-mapping call and of the generation call (for a returned
generation, the raw text together with its structured-parse outcome). -/
structure GenEnv where
  mapResp : Except String (Option (List MapChar))
  genResp : Except String (String × Option GenResult)
  deriving DecidableEq

/-- `ChatNovelEngine.generate_chapter` as a function of the loaded state
(`novel₀`, `messages`), the flag argument and the call outcomes.  It
returns the generated chapter (`none` on failure) together with the
saved session state and message buffer. -/
def generate_chapter (novel₀ : ChatNovel) (messages : List ChatMessage)
    (max_word_count : Nat) (force_ending : Bool) (env : GenEnv) :
    Option ChatChapter × ChatNovel × List ChatMessage :=
  if messages = [] then (none, novel₀, messages)
  else
    let chapter_number := novel₀.chapters.length + 1
    let newParts := newParticipants novel₀ messages
    let novel :=
      if newParts ≠ [] then map_new_characters novel₀ newParts env.mapResp
      else novel₀
    match env.genResp with
    | .error _ => (none, novel, messages)
    | .ok (response, parsed) =>
        let chapter : ChatChapter :=
          match parsed with
          | none =>
              { number := chapter_number
                title := "第" ++ toString chapter_number ++ "章"
                content := pyStrip response
                summary := pyTake 200 (pyStrip response) }
          | some r =>
              { number := chapter_number
                title := r.chapter_title.getD ("第" ++ toString chapter_number ++ "章")
                content := r.content.getD (pyStrip response)
                summary := r.summary.getD "" }
        let novel₁ := { novel with chapters := novel.chapters ++ [chapter] }
        let updSummary : Option String :=
          match parsed with
          | some r =>
              match r.updated_summary with
              | some s => if s ≠ "" then some s else none
              | none => none
          | none => none
        let novel₂ :=
          match updSummary with
          | some s => { novel₁ with global_summary := s }
          | none =>
              if chapter.summary ≠ "" then
                { novel₁ with global_summary :=
                  (pyTakeRight 500 (novel₁.global_summary ++ " " ++ chapter.summary)) }
              else novel₁
        let novel₃ :=
          match parsed with
          | some r =>
              match r.character_updates with
              | some cus =>
                  if cus ≠ [] then
                    { novel₂ with
                      characters := applyCharacterUpdates novel₂.characters cus }
                  else novel₂
              | none => novel₂
          | none => novel₂
        let final :=
          if force_ending then { novel₃ with force_ending := false, status := "stopped" }
          else novel₃
        (some chapter, final, [])

/-- The threshold check of `NovelPlugin.on_group_message`:
`count >= threshold and count % threshold == 0`. -/
def chatNovelShouldGenerate (count threshold : Nat) : Bool :=
  count ≥ threshold && count % threshold == 0

/-- `ChatNovelEngine.filter_messages`: an empty buffer, a raised call, an
unparseable response or a parse without `keep_indices` leave the buffer
unchanged; otherwise the messages at the kept indices are saved, unless
that selection is empty, in which case the buffer is also kept intact.
Returns `(original count, kept count)` with the saved buffer. -/
def filter_messages (messages : List ChatMessage)
    (resp : Except String (Option (List Nat))) :
    (Nat × Nat) × List ChatMessage :=
  if messages = [] then ((0, 0), messages)
  else
    let n := messages.length
    match resp with
    | .error _ => ((n, n), messages)
    | .ok none => ((n, n), messages)
    | .ok (some keep) =>
        let filtered := (messages.enum.filter (fun p => decide (p.1 ∈ keep))).map Prod.snd
        if filtered ≠ [] then ((n, filtered.length), filtered)
        else ((n, n), messages)

/-- Parsed JSON of a quality-evaluation response.  `ratio_text` models
the response's share-of-valid-messages text field. -/
structure EvalResult where
  sufficient : Bool
  reason : String
  ratio_text : String
  deriving DecidableEq

/-- `ChatNovelEngine.evaluate_quality`: an empty buffer is insufficient
without consulting the backend; with a non-empty buffer, a raised call
or an unparseable response fail open (treated as sufficient). -/
def evaluate_quality (messages : List ChatMessage)
    (resp : Except String (Option EvalResult)) : Bool × String :=
  if messages = [] then (false, "没有待处理的消息")
  else
    match resp with
    | .error e => (true, "评估异常: " ++ e)
    | .ok none => (true, "评估解析失败，默认允许生成")
    | .ok (some r) =>
        (r.sufficient,
          if r.ratio_text ≠ "" then r.ratio_text ++ " — " ++ r.reason else r.reason)

/-- C6: with a positive threshold `T`, the passive-collection path
attempts chapter synthesis exactly at buffer counts that are positive
integer multiples of `T`, and every successful chapter generation leaves
the message buffer empty. -/
theorem c6_trigger_multiples_and_buffer_cleared (T count : Nat) (hT : 0 < T)
    (novel : ChatNovel) (messages : List ChatMessage) (mwc : Nat) (fe : Bool)
    (env : GenEnv) :
    (chatNovelShouldGenerate count T = true ↔ (count % T = 0 ∧ 0 < count)) ∧
    (∀ ch novel' msgs',
      generate_chapter novel messages mwc fe env = (some ch, novel', msgs') →
      msgs' = []) := by
  constructor
  · constructor
    · intro h
      simp only [chatNovelShouldGenerate, Bool.and_eq_true, decide_eq_true_eq,
        beq_iff_eq, ge_iff_le] at h
      exact ⟨h.2, lt_of_lt_of_le hT h.1⟩
    · intro h
      simp only [chatNovelShouldGenerate, Bool.and_eq_true, decide_eq_true_eq,
        beq_iff_eq, ge_iff_le]
      exact ⟨Nat.le_of_dvd h.2 (Nat.dvd_of_mod_eq_zero h.1), h.1⟩
  · intro ch novel' msgs' heq
    by_cases hm : messages = []
    · rw [generate_chapter, if_pos hm] at heq
      simp at heq
    · rw [generate_chapter, if_neg hm] at heq
      cases hg : env.genResp with
      | error e =>
        rw [hg] at heq
        simp at heq
      | ok p =>
        obtain ⟨resp, parsed⟩ := p
        rw [hg] at heq
        have := congrArg (fun t => t.2.2) heq
        simpa using this.symm

/-- Witness for C6 at `T = 2`, a buffer of four messages, and a
generation environment whose call returns plain text. -/
theorem c6_trigger_multiples_and_buffer_cleared_witness :
    0 < 2 ∧
    ((chatNovelShouldGenerate 4 2 = true ↔ (4 % 2 = 0 ∧ 0 < 4)) ∧
    (∀ ch novel' msgs',
      generate_chapter
        { status := "collecting", requirements := "", title := "群聊物语", chapters := [],
          characters := [], global_summary := "故事尚未开始。", contributors := [],
          created_at := "", cover_auto_generate := true, preview_enabled := true,
          custom_settings := [], force_ending := false }
        [{ sender_name := "u", sender_id := "1", content := "hi", timestamp := "t" }]
        2000 false
        { mapResp := .ok none, genResp := .ok ("正文", none) } = (some ch, novel', msgs') →
      msgs' = [])) :=
  ⟨by decide,
    c6_trigger_multiples_and_buffer_cleared 2 4 (by decide) _ _ 2000 false _⟩

/-- C7: on a non-empty buffer, `filter_messages` never saves an empty
buffer: a raised call, an unparseable response, or a selection that
retains nothing leaves the buffer exactly as it was; otherwise the saved
buffer is the non-empty subsequence of the original messages at the
selected indices. -/
theorem c7_filter_messages_never_empties (messages : List ChatMessage)
    (resp : Except String (Option (List Nat))) (hne : messages ≠ []) :
    (filter_messages messages resp).2 ≠ [] ∧
    (filter_messages messages resp).2.Sublist messages ∧
    (∀ e, resp = .error e →
      filter_messages messages resp = ((messages.length, messages.length), messages)) ∧
    (resp = .ok none →
      filter_messages messages resp = ((messages.length, messages.length), messages)) ∧
    (∀ keep, resp = .ok (some keep) →
      ((messages.enum.filter (fun p => decide (p.1 ∈ keep))).map Prod.snd = [] →
        filter_messages messages resp = ((messages.length, messages.length), messages)) ∧
      ((messages.enum.filter (fun p => decide (p.1 ∈ keep))).map Prod.snd ≠ [] →
        filter_messages messages resp =
          ((messages.length,
            ((messages.enum.filter (fun p => decide (p.1 ∈ keep))).map Prod.snd).length),
            (messages.enum.filter (fun p => decide (p.1 ∈ keep))).map Prod.snd))) := by
  have hsub : ∀ keep : List Nat,
      ((messages.enum.filter (fun p => decide (p.1 ∈ keep))).map Prod.snd).Sublist
        messages := by
    intro keep
    have h1 : (messages.enum.filter (fun p => decide (p.1 ∈ keep))).Sublist messages.enum :=
      List.filter_sublist _
    have h2 := h1.map Prod.snd
    rwa [List.enum_map_snd] at h2
  cases resp with
  | error e =>
    refine ⟨?_, ?_, ?_, ?_, ?_⟩
    · simp [filter_messages, hne]
    · rw [show (filter_messages messages (.error e)).2 = messages by
        simp [filter_messages, hne]]
    · intro e' _
      simp [filter_messages, hne]
    · intro h
      cases h
    · intro keep h
      cases h
  | ok o =>
    cases o with
    | none =>
      refine ⟨?_, ?_, ?_, ?_, ?_⟩
      · simp [filter_messages, hne]
      · rw [show (filter_messages messages (.ok none)).2 = messages by
          simp [filter_messages, hne]]
      · intro e h
        cases h
      · intro _
        simp [filter_messages, hne]
      · intro keep h
        cases h
    | some keep =>
      by_cases hf : (messages.enum.filter (fun p => decide (p.1 ∈ keep))).map Prod.snd = []
      · refine ⟨?_, ?_, ?_, ?_, ?_⟩
        · simp [filter_messages, hne, hf]
        · rw [show (filter_messages messages (.ok (some keep))).2 = messages by
            simp [filter_messages, hne, hf]]
        · intro e h
          cases h
        · intro h
          cases h
        · intro keep' h
          have hk : keep' = keep := by
            injection h with h1
            injection h1 with h2
            exact h2.symm
          subst keep'
          exact ⟨fun _ => by simp [filter_messages, hne, hf], fun hcon => absurd hf hcon⟩
      · refine ⟨?_, ?_, ?_, ?_, ?_⟩
        · rw [show (filter_messages messages (.ok (some keep))).2 =
            (messages.enum.filter (fun p => decide (p.1 ∈ keep))).map Prod.snd by
            simp [filter_messages, hne, hf]]
          exact hf
        · rw [show (filter_messages messages (.ok (some keep))).2 =
            (messages.enum.filter (fun p => decide (p.1 ∈ keep))).map Prod.snd by
            simp [filter_messages, hne, hf]]
          exact hsub keep
        · intro e h
          cases h
        · intro h
          cases h
        · intro keep' h
          have hk : keep' = keep := by
            injection h with h1
            injection h1 with h2
            exact h2.symm
          subst keep'
          exact ⟨fun hcon => absurd hcon hf, fun _ => by simp [filter_messages, hne, hf]⟩

/-- Witness for C7: three buffered messages and a filter that keeps
index 2 only. -/
theorem c7_filter_messages_never_empties_witness :
    ([{ sender_name := "a", sender_id := "1", content := "x", timestamp := "" },
      { sender_name := "b", sender_id := "2", content := "y", timestamp := "" },
      { sender_name := "c", sender_id := "3", content := "z", timestamp := "" }] ≠
        ([] : List ChatMessage)) ∧
    (filter_messages
      [{ sender_name := "a", sender_id := "1", content := "x", timestamp := "" },
       { sender_name := "b", sender_id := "2", content := "y", timestamp := "" },
       { sender_name := "c", sender_id := "3", content := "z", timestamp := "" }]
      (.ok (some [2]))).2 ≠ [] :=
  ⟨by decide,
    (c7_filter_messages_never_empties
      [{ sender_name := "a", sender_id := "1", content := "x", timestamp := "" },
       { sender_name := "b", sender_id := "2", content := "y", timestamp := "" },
       { sender_name := "c", sender_id := "3", content := "z", timestamp := "" }]
      (.ok (some [2])) (by decide)).1⟩

/-- C8: when the stored `force_ending` flag is set and passed to the next
generation (as the caller does after reading `get_force_ending`), the
generation request carries a non-empty ending directive; a successful
generation stops the session and clears the flag, and an unsuccessful
one leaves the flag set. -/
theorem c8_force_ending_one_shot (novel : ChatNovel) (messages : List ChatMessage)
    (mwc : Nat) (env : GenEnv)
    (hflag : get_force_ending novel = true) :
    (∀ nv msgs, (generateRequest nv msgs mwc (get_force_ending novel)).ending_instruction ≠ "") ∧
    (∀ ch novel' msgs',
      generate_chapter novel messages mwc (get_force_ending novel) env =
        (some ch, novel', msgs') →
      novel'.force_ending = false ∧ novel'.status = "stopped") ∧
    (∀ novel' msgs',
      generate_chapter novel messages mwc (get_force_ending novel) env =
        (none, novel', msgs') →
      novel'.force_ending = true) := by
  have hflag' : novel.force_ending = true := hflag
  rw [hflag]
  have hmapfe : ∀ (n : ChatNovel) names r, (map_new_characters n names r).force_ending =
      n.force_ending := by
    intro n names r
    cases r with
    | error e => rfl
    | ok o =>
      cases o with
      | none => rfl
      | some cs =>
        simp only [map_new_characters]
        split <;> rfl
  refine ⟨?_, ?_, ?_⟩
  · intro nv msgs
    simp [generateRequest, endingInstruction]
  · intro ch novel' msgs' heq
    by_cases hm : messages = []
    · rw [generate_chapter, if_pos hm] at heq
      simp at heq
    · rw [generate_chapter, if_neg hm] at heq
      cases hg : env.genResp with
      | error e =>
        rw [hg] at heq
        simp at heq
      | ok p =>
        obtain ⟨resp, parsed⟩ := p
        rw [hg] at heq
        have h2 := congrArg (fun t => t.2.1) heq
        simp only at h2
        rw [← h2]
        constructor <;> rfl
  · intro novel' msgs' heq
    by_cases hm : messages = []
    · rw [generate_chapter, if_pos hm] at heq
      have h2 := congrArg (fun t => t.2.1) heq
      simp only at h2
      rw [← h2]
      exact hflag'
    · rw [generate_chapter, if_neg hm] at heq
      cases hg : env.genResp with
      | error e =>
        rw [hg] at heq
        have h2 := congrArg (fun t => t.2.1) heq
        simp only at h2
        rw [← h2]
        by_cases hp : newParticipants novel messages ≠ []
        · rw [if_pos hp, hmapfe]
          exact hflag'
        · rw [if_neg hp]
          exact hflag'
      | ok p =>
        obtain ⟨resp, parsed⟩ := p
        rw [hg] at heq
        simp at heq

/-- Witness for C8: a session with the flag set, one buffered message,
both call outcomes concrete. -/
theorem c8_force_ending_one_shot_witness :
    get_force_ending
      { status := "collecting", requirements := "", title := "群聊物语", chapters := [],
        characters := [], global_summary := "故事尚未开始。", contributors := [],
        created_at := "", cover_auto_generate := true, preview_enabled := true,
        custom_settings := [], force_ending := true } = true ∧
    (∀ nv msgs, (generateRequest nv msgs 2000
      (get_force_ending
        { status := "collecting", requirements := "", title := "群聊物语", chapters := [],
          characters := [], global_summary := "故事尚未开始。", contributors := [],
          created_at := "", cover_auto_generate := true, preview_enabled := true,
          custom_settings := [], force_ending := true })).ending_instruction ≠ "") :=
  ⟨by decide,
    (c8_force_ending_one_shot
      { status := "collecting", requirements := "", title := "群聊物语", chapters := [],
        characters := [], global_summary := "故事尚未开始。", contributors := [],
        created_at := "", cover_auto_generate := true, preview_enabled := true,
        custom_settings := [], force_ending := true }
      [{ sender_name := "u", sender_id := "1", content := "hi", timestamp := "t" }]
      2000 { mapResp := .ok none, genResp := .ok ("正文", none) } (by decide)).1⟩

/-- C10: with an empty message buffer `evaluate_quality` answers
insufficient with a fixed message, independently of any backend outcome
(the call is never made); the fail-open treatment of raised calls and
unparseable responses applies only to non-empty buffers. -/
theorem c10_evaluate_quality_empty_gate
    (resp resp' : Except String (Option EvalResult)) (msgs : List ChatMessage)
    (e : String) :
    evaluate_quality [] resp = (false, "没有待处理的消息") ∧
    evaluate_quality [] resp = evaluate_quality [] resp' ∧
    evaluate_quality msgs (.error e) =
      (if msgs = [] then (false, "没有待处理的消息") else (true, "评估异常: " ++ e)) ∧
    evaluate_quality msgs (.ok none) =
      (if msgs = [] then (false, "没有待处理的消息")
        else (true, "评估解析失败，默认允许生成")) := by
  refine ⟨rfl, rfl, ?_, ?_⟩
  · by_cases hm : msgs = [] <;> simp [evaluate_quality, hm]
  · by_cases hm : msgs = [] <;> simp [evaluate_quality, hm]

/-! ## Novel engine (`novel_engine.py`) -/

/-- One entry of a scene's `revisions` history; `revision_type` is only
present on entries written by the user-guided revision. -/
structure SceneRevision where
  version : Nat
  content : String
  revision_type : Option String
  deriving DecidableEq

/-- One scene of a chapter in `novel.json`. -/
structure Scene where
  title : String
  content : String
  summary : String
  version : Nat
  revisions : List SceneRevision
  status : String
  deriving DecidableEq

/-- One chapter of `novel.json`. -/
structure EngChapter where
  number : Nat
  title : String
  summary : String
  scenes : List Scene
  deriving DecidableEq

/-- The engine novel state (`novel.json`); fields not read or written by
the modelled operation are omitted. -/
structure EngNovel where
  title : String
  synopsis : String
  current_style : String
  chapters : List EngChapter
  global_summary : String
  deriving DecidableEq

/-- The chapter-content concatenation of `revise_chapter_with_user_input`:
titled scenes contribute a `—— title ——` line, then content, then an
empty line; all joined with newlines. -/
def chapterContent (ch : EngChapter) : String :=
  String.intercalate "\n"
    (ch.scenes.foldr
      (fun sc acc =>
        (if sc.title ≠ "" then ["—— " ++ sc.title ++ " ——"] else []) ++
          [sc.content, ""] ++ acc)
      [])

/-- The per-scene bookkeeping done before re-partitioning: archive the
current content in `revisions` (tagged `user_guided`) and increment
`version`; applied to every scene of the chapter. -/
def bumpScene (sc : Scene) : Scene :=
  { sc with
    revisions := sc.revisions ++ [⟨sc.version, sc.content, some "user_guided"⟩]
    version := sc.version + 1 }

/-- The even-indexed elements of the split parts (`range(0, len(parts), 2)`):
the section bodies, the odd positions being the captured labels. -/
def evenIdxParts : List String → List String
  | [] => []
  | [a] => [a]
  | a :: _ :: rest => a :: evenIdxParts rest

/-- The successful-split assignment loop: scene `j` receives the `j`-th
section body when it exists and its stripped text is non-empty. -/
def applySplitParts (scenes : List Scene) (parts : List String) : List Scene :=
  scenes.mapIdx (fun j sc =>
    match (evenIdxParts parts)[j]? with
    | some p => if pyStrip p ≠ "" then { sc with content := pyStrip p, status := "revised" } else sc
    | none => sc)

/-- `NovelEngine._summarize_scene`: a raised call falls back to naive
truncation of the content. -/
def summarizeScene (resp : Except String String) (content : String) : String :=
  match resp with
  | .ok s => pyTake 200 (pyStrip s)
  | .error _ => pyTake 100 content ++ "..."

/-- First chapter with the given number, together with its index. -/
def findChapterIdx : List EngChapter → Nat → Option (Nat × EngChapter)
  | [], _ => none
  | ch :: rest, n =>
      if ch.number = n then some (0, ch)
      else
        match findChapterIdx rest n with
        | some (i, c) => some (i + 1, c)
        | none => none

/-- Environment of one `revise_chapter_with_user_input` run: the main
revision call, the scene-summary call and the global-summary call (the
latter two never propagate exceptions). -/
structure ReviseEnv where
  mainResp : Except String String
  sumResp : Except String String
  globResp : Except String String
  deriving DecidableEq

/-- `NovelEngine.revise_chapter_with_user_input` as a function of the
loaded state and call outcomes.  The `re.split` over the labeled-section
pattern is abstracted as the `split` argument (on text without any
`—— label ——` section, `re.split` returns the one-element list holding
the whole text).  Arguments used only inside the prompt (the user
feedback) are omitted. -/
def revise_chapter_with_user_input (split : String → List String)
    (novel : EngNovel) (chapter_number : Nat) (env : ReviseEnv) :
    Option EngChapter × EngNovel :=
  match findChapterIdx novel.chapters chapter_number with
  | none => (none, novel)
  | some (idx, chapter) =>
      if pyStrip (chapterContent chapter) = "" then (none, novel)
      else
        match env.mainResp with
        | .error _ => (none, novel)
        | .ok revised_content =>
            if pyStrip revised_content = "" then (none, novel)
            else
              let scenes₁ := chapter.scenes.map bumpScene
              let scenes₂ :=
                if scenes₁.length = 1 then
                  match scenes₁ with
                  | [sc] => [{ sc with content := pyStrip revised_content, status := "revised" }]
                  | l => l
                else
                  let parts := split (pyStrip revised_content)
                  if parts.length ≥ 2 * scenes₁.length - 1 then
                    applySplitParts scenes₁ parts
                  else
                    match scenes₁ with
                    | [] => scenes₁
                    | sc :: rest =>
                        { sc with content := pyStrip revised_content, status := "revised" } :: rest
              let chapter' := { chapter with
                scenes := scenes₂
                summary := summarizeScene env.sumResp (pyTake 3000 revised_content) }
              let novel' := { novel with
                chapters := novel.chapters.set idx chapter'
                global_summary :=
                  match env.globResp with
                  | .ok g => pyTake 500 (pyStrip g)
                  | .error _ => novel.global_summary }
              (some chapter', novel')

/-- First scene of the concrete two-scene chapter used against C9. -/
def c9Scene0 : Scene :=
  { title := "开场"
    content := "场景一原文"
    summary := ""
    version := 1
    revisions := []
    status := "draft" }

/-- Second scene of the concrete two-scene chapter used against C9. -/
def c9Scene1 : Scene :=
  { title := "高潮"
    content := "场景二原文"
    summary := ""
    version := 1
    revisions := []
    status := "draft" }

/-- Concrete two-scene chapter used against C9. -/
def c9Chapter : EngChapter :=
  { number := 1
    title := "第一章"
    summary := ""
    scenes := [c9Scene0, c9Scene1] }

/-- Concrete engine novel with one two-scene chapter. -/
def c9Novel : EngNovel :=
  { title := "书"
    synopsis := ""
    current_style := ""
    chapters := [c9Chapter]
    global_summary := "故事尚未开始。" }

/-- The splitter on text with no `—— label ——` section: `re.split`
returns the one-element list holding the whole text. -/
def c9Split : String → List String := fun s => [s]

/-- Concrete revision environment: the main call returns plain text, the
summary calls raise (they degrade internally). -/
def c9Env : ReviseEnv :=
  { mainResp := .ok "整章重写文本"
    sumResp := .error "超时"
    globResp := .error "超时" }

/-- The chapter actually produced on the C9 counterexample input. -/
def c9Result : EngChapter :=
  { number := 1
    title := "第一章"
    summary := "整章重写文本..."
    scenes :=
      [{ title := "开场"
         content := "整章重写文本"
         summary := ""
         version := 2
         revisions := [⟨1, "场景一原文", some "user_guided"⟩]
         status := "revised" },
       { title := "高潮"
         content := "场景二原文"
         summary := ""
         version := 2
         revisions := [⟨1, "场景二原文", some "user_guided"⟩]
         status := "draft" }] }

/-- C9 counterexample: revising the two-scene chapter with a text that
cannot be re-partitioned puts the whole text into scene 0 — but scene 1
is not left untouched: its `version` is incremented from 1 to 2 and its
prior content is archived in `revisions` (only its `content` and
`status` are unchanged). -/
theorem c9_revise_fallback_counterexample :
    (revise_chapter_with_user_input c9Split c9Novel 1 c9Env).1 = some c9Result ∧
    c9Result.scenes[1]? ≠ some c9Scene1 ∧
    (c9Result.scenes[1]?).map Scene.version = some 2 ∧
    (c9Result.scenes[1]?).map Scene.revisions =
      some [⟨1, "场景二原文", some "user_guided"⟩] ∧
    (c9Result.scenes[1]?).map Scene.content = some c9Scene1.content ∧
    (c9Result.scenes[1]?).map Scene.status = some c9Scene1.status := by
  refine ⟨?_, ?_, ?_, ?_, ?_, ?_⟩ <;> decide

/-- C9 (amended): in user-guided revision of a multi-scene chapter, when
the returned text cannot be re-partitioned into sections matching the
scene count, the entire returned text becomes the content of the first
scene only (marked revised); every other scene keeps its content and
status unchanged, though every scene's `version` is incremented and its
prior content archived in its revision history. -/
theorem c9_revise_fallback_amended (split : String → List String) (novel : EngNovel)
    (chapter_number : Nat) (env : ReviseEnv) (idx : Nat) (chapter : EngChapter)
    (text : String)
    (hfind : findChapterIdx novel.chapters chapter_number = some (idx, chapter))
    (hscenes : 2 ≤ chapter.scenes.length)
    (hcontent : pyStrip (chapterContent chapter) ≠ "")
    (hmain : env.mainResp = .ok text)
    (htext : pyStrip text ≠ "")
    (hsplit : (split (pyStrip text)).length < 2 * chapter.scenes.length - 1) :
    ∃ ch', (revise_chapter_with_user_input split novel chapter_number env).1 = some ch' ∧
      (revise_chapter_with_user_input split novel chapter_number env).2.chapters =
        novel.chapters.set idx ch' ∧
      ch'.scenes.length = chapter.scenes.length ∧
      (∀ sc₀, chapter.scenes[0]? = some sc₀ →
        ch'.scenes[0]? =
          some { bumpScene sc₀ with content := pyStrip text, status := "revised" }) ∧
      (∀ j, 1 ≤ j → ch'.scenes[j]? = (chapter.scenes[j]?).map bumpScene) := by
  obtain ⟨sc₀, rest, hsc⟩ : ∃ sc₀ rest, chapter.scenes = sc₀ :: rest := by
    cases hs : chapter.scenes with
    | nil =>
      rw [hs] at hscenes
      exact absurd hscenes (by simp)
    | cons a l => exact ⟨a, l, rfl⟩
  have hlen1 : ¬ ((chapter.scenes.map bumpScene).length = 1) := by
    rw [List.length_map]
    omega
  have hlenS : ¬ ((split (pyStrip text)).length ≥ 2 * (chapter.scenes.map bumpScene).length - 1) := by
    rw [List.length_map]
    omega
  have hcomp : revise_chapter_with_user_input split novel chapter_number env =
      (some { chapter with
          scenes := { bumpScene sc₀ with content := pyStrip text, status := "revised" } ::
            rest.map bumpScene
          summary := summarizeScene env.sumResp (pyTake 3000 text) },
        { novel with
          chapters := novel.chapters.set idx { chapter with
            scenes := { bumpScene sc₀ with content := pyStrip text, status := "revised" } ::
              rest.map bumpScene
            summary := summarizeScene env.sumResp (pyTake 3000 text) }
          global_summary :=
            match env.globResp with
            | .ok g => pyTake 500 (pyStrip g)
            | .error _ => novel.global_summary }) := by
    simp only [revise_chapter_with_user_input, hfind, hmain]
    rw [if_neg hcontent, if_neg htext, if_neg hlen1, if_neg hlenS, hsc, List.map_cons]
  refine ⟨_, by rw [hcomp], by rw [hcomp], ?_, ?_, ?_⟩
  · rw [hsc]
    simp
  · intro s h
    rw [hsc] at h
    have hs : sc₀ = s := by simpa using h
    subst s
    simp
  · intro j hj
    cases j with
    | zero => exact absurd hj (by simp)
    | succ k =>
      rw [hsc]
      simp [List.getElem?_map]

/-- Witness for the amended C9 at the concrete two-scene chapter. -/
theorem c9_revise_fallback_amended_witness :
    (findChapterIdx c9Novel.chapters 1 = some (0, c9Chapter) ∧
      2 ≤ c9Chapter.scenes.length ∧
      pyStrip (chapterContent c9Chapter) ≠ "" ∧
      c9Env.mainResp = .ok "整章重写文本" ∧
      pyStrip ("整章重写文本" : String) ≠ "" ∧
      (c9Split (pyStrip ("整章重写文本" : String))).length < 2 * c9Chapter.scenes.length - 1) ∧
    (∃ ch', (revise_chapter_with_user_input c9Split c9Novel 1 c9Env).1 = some ch' ∧
      (revise_chapter_with_user_input c9Split c9Novel 1 c9Env).2.chapters =
        c9Novel.chapters.set 0 ch' ∧
      ch'.scenes.length = c9Chapter.scenes.length ∧
      (∀ sc₀, c9Chapter.scenes[0]? = some sc₀ →
        ch'.scenes[0]? = some { bumpScene sc₀ with
          content := pyStrip ("整章重写文本" : String)
          status := "revised" }) ∧
      (∀ j, 1 ≤ j → ch'.scenes[j]? = (c9Chapter.scenes[j]?).map bumpScene)) :=
  ⟨⟨by decide, by decide, by decide, rfl, by decide, by decide⟩,
    c9_revise_fallback_amended c9Split c9Novel 1 c9Env 0 c9Chapter
      "整章重写文本" (by decide) (by decide) (by decide) rfl (by decide) (by decide)⟩

end NovelPlugin
